import Mathlib

/-!
# Hierarchical state machine engine and its message queue

A shallow embedding of `src/hsm.c`, `src/hsm.h` and `src/misc.c`.

* Machine integers are naturals; a store into a narrower field reduces
  modulo the field width.
* A table read `state_info[i]` outside the supplied table stops the run with
  `Status.out_of_bounds`; a failed `assert` stops it with
  `Status.assert_failed`.  The engine reached so far is returned with the
  status, so the effects that precede a stop stay visible.
* Loops carry a fuel argument that bounds the number of loop-body executions;
  running out of it is reported as `Status.out_of_fuel`.
* Callbacks are functions on the caller context.  The callbacks that were
  invoked, and the diagnostics that went through the debug hook, are recorded
  in order in the ghost field `calls` of the engine.
-/

namespace Hsm

/-! ## Constants of `hsm.h` -/

/-- Invalid state. -/
def HSM_STATE_NONE : Nat := 255

/-- Invalid event. -/
def HSM_EVENT_NONE : Nat := 255

/-- Bound on the state ids of a table. -/
def HSM_MAX_STATES : Nat := 200

/-- Flag bit of `hsm_engine_create` selecting synchronous delivery. -/
def HSM_SYNCHRONOUS : Nat := 1

/-! ## Message queue (`misc.h`, `misc.c`) -/

/-- Delivery mode of a queue. -/
inductive mesgq_delivery_type_t where
  | MESG_DELIVERY_SYNC
  | MESG_DELIVERY_ASYNC
  deriving DecidableEq, Repr

/-- One message slot: the fields `type`, `len` and `data` of `mesg_t` behind a
slot reference.  The single link field `list` is not a field here: it is
represented by the position of the reference in a queue. -/
structure mesg_t where
  type : Nat
  len : Nat
  data : List Nat
  deriving DecidableEq, Repr

/-- Message handler: `void (*)(void *ctx, uint16_t, uint16_t, void *)`, as a
function on the context it is registered with. -/
abbrev mesg_handler_t (W : Type) := W → Nat → Nat → List Nat → W

/-- Modelled from the spec: the `STAILQ_HEAD` of `list.h`, which is not among the
sources.  The spec gives a linked list with head and tail insertion and head
removal that keeps insertion order; it is the sequence of slot references,
head first.  A slot reference is the byte offset of the slot in `qbuf`.  A
sequence keeps a reference that is inserted while it is still linked, in this
or in the other list, at both places; what an intrusive list does with its one
link field in that case is left to the absent `list.h` and not represented. -/
abbrev stailq := List Nat

/-- Modelled from the spec: `STAILQ_INIT` of `list.h`, the empty list. -/
def STAILQ_INIT : stailq := []

/-- Modelled from the spec: `STAILQ_FIRST` of `list.h`, the head of the list or
`NULL`; the list is not changed. -/
def STAILQ_FIRST (head : stailq) : Option Nat := head.head?

/-- Modelled from the spec: `STAILQ_INSERT_TAIL` of `list.h`. -/
def STAILQ_INSERT_TAIL (head : stailq) (elm : Nat) : stailq := head ++ [elm]

/-- Modelled from the spec: `STAILQ_REMOVE_HEAD` of `list.h`. -/
def STAILQ_REMOVE_HEAD (head : stailq) : stailq := head.tail

/-- The queue `mesg_queue_t`.  `qbuf` maps a slot reference to the fields stored
there; every reference has a record of its own, so bytes of `qbuf` that two
slots share are not represented.  The registered handler and its context
(`qhandler`, `ctx`) are passed to the operations explicitly, and `timer_sets`
counts the calls of `timer_set`.  The lock is not represented. -/
structure mesg_queue_t where
  mesg_head : stailq
  free_mesg : stailq
  num_mesg : Nat
  mesg_len : Nat
  qbuf : Nat → mesg_t
  timer_sets : Nat
  is_synchronous : Bool

/-- The content of `memset`-zeroed queue storage. -/
def mesg_queue_zero : mesg_queue_t :=
  { mesg_head := [], free_mesg := [], num_mesg := 0, mesg_len := 0,
    qbuf := fun _ => ⟨0, 0, []⟩, timer_sets := 0, is_synchronous := false }

/-- The loop of `mesg_queue_init` that puts the slots on the free list:
`k` iterations remain, `mesg` is the reference of the next slot, and each
iteration advances it by `sizeof(mesg_t)`. -/
def mesg_queue_init_loop (sizeof_mesg : Nat) : Nat → Nat → stailq → stailq
  | 0, _, free_mesg => free_mesg
  | k + 1, mesg, free_mesg =>
    mesg_queue_init_loop sizeof_mesg k (mesg + sizeof_mesg) (STAILQ_INSERT_TAIL free_mesg mesg)

/-- `mesg_queue_init`: `sizeof_mesg` is `sizeof(mesg_t)`, `malloc_ok` tells
whether the allocation of `qbuf` succeeds.  Returns the `int` result and the
queue. -/
def mesg_queue_init (sizeof_mesg : Nat) (malloc_ok : Bool) (queue : mesg_queue_t)
    (mesg_len max_queued : Nat) (type : mesgq_delivery_type_t) : Int × mesg_queue_t :=
  if !malloc_ok then (-1, queue)
  else
    let queue := { queue with num_mesg := 0, mesg_len := mesg_len }
    let queue := { queue with mesg_head := STAILQ_INIT, free_mesg := STAILQ_INIT }
    let queue := { queue with
      free_mesg := mesg_queue_init_loop sizeof_mesg max_queued 0 queue.free_mesg }
    if type = mesgq_delivery_type_t.MESG_DELIVERY_SYNC then
      (0, { queue with is_synchronous := true })
    else
      (0, { queue with is_synchronous := false })

/-- `memcpy(dst, src, n)` on a buffer: the first `n` bytes come from `src`. -/
def memcpy (dst src : List Nat) (n : Nat) : List Nat := src.take n ++ dst.drop n

/-- `mesg_queue_send`: returns the `int` result, the queue and the context of
the registered handler `qhandler`. -/
def mesg_queue_send {W : Type} (qhandler : mesg_handler_t W) (queue : mesg_queue_t) (ctx : W)
    (type len : Nat) (mesg_data : List Nat) : Int × mesg_queue_t × W :=
  if queue.is_synchronous then
    (0, queue, qhandler ctx type len mesg_data)
  else
    match STAILQ_FIRST queue.free_mesg with
    | none => (-1, queue, ctx)
    | some mesg =>
      let m := queue.qbuf mesg
      let m := { m with type := type, len := len }
      let m := if len ≠ 0 then { m with data := memcpy m.data mesg_data len } else m
      let queue := { queue with qbuf := Function.update queue.qbuf mesg m }
      let queue := { queue with mesg_head := STAILQ_INSERT_TAIL queue.mesg_head mesg }
      let queue := { queue with num_mesg := (queue.num_mesg + 1) % 2 ^ 32 }
      let queue :=
        if queue.num_mesg = 1 then { queue with timer_sets := queue.timer_sets + 1 } else queue
      (0, queue, ctx)

/-- Outcome of a run. -/
inductive Status where
  | returned
  | assert_failed
  | out_of_bounds
  | out_of_fuel
  deriving DecidableEq, Repr

/-- The loop of `mesg_queue_drain`; `fuel` bounds the number of iterations. -/
def mesg_queue_drain_loop {W : Type} (msg_handler : mesg_handler_t W) :
    Nat → mesg_queue_t → W → Status × mesg_queue_t × W
  | fuel, queue, ctx =>
    match STAILQ_FIRST queue.mesg_head with
    | none => (Status.returned, queue, ctx)
    | some mesg =>
      match fuel with
      | 0 => (Status.out_of_fuel, queue, ctx)
      | fuel + 1 =>
        let queue := { queue with mesg_head := STAILQ_REMOVE_HEAD queue.mesg_head }
        let queue := { queue with num_mesg := (queue.num_mesg + 2 ^ 32 - 1) % 2 ^ 32 }
        let m := queue.qbuf mesg
        let ctx := msg_handler ctx m.type m.len m.data
        let queue := { queue with free_mesg := STAILQ_INSERT_TAIL queue.free_mesg mesg }
        mesg_queue_drain_loop msg_handler fuel queue ctx

/-- `mesg_queue_drain`. -/
def mesg_queue_drain {W : Type} (fuel : Nat) (msg_handler : mesg_handler_t W)
    (queue : mesg_queue_t) (ctx : W) : Status × mesg_queue_t × W :=
  mesg_queue_drain_loop msg_handler fuel queue ctx

/-- `mesg_queue_destroy`. -/
def mesg_queue_destroy (queue : mesg_queue_t) : mesg_queue_t :=
  { queue with num_mesg := 0, mesg_head := STAILQ_INIT, free_mesg := STAILQ_INIT }

/-! ## Queues used as concrete instances -/

/-- A handler that records the messages it is called with, oldest first. -/
def record : mesg_handler_t (List mesg_t) :=
  fun ctx mesg_type mesg_len mesg => ctx ++ [⟨mesg_type, mesg_len, mesg⟩]

/-- A fresh asynchronous queue of capacity 1 and payload size 4. -/
def queue_cap1 : mesg_queue_t :=
  (mesg_queue_init 16 true mesg_queue_zero 4 1 mesgq_delivery_type_t.MESG_DELIVERY_ASYNC).2

/-- The queue `queue_cap1` after the message (1, 1, [10]) was sent. -/
def queue_cap1_sent : mesg_queue_t :=
  (mesg_queue_send record queue_cap1 [] 1 1 [10]).2.1

/-- A fresh asynchronous queue of capacity 2 and payload size 1. -/
def queue_cap2 : mesg_queue_t :=
  (mesg_queue_init 16 true mesg_queue_zero 1 2 mesgq_delivery_type_t.MESG_DELIVERY_ASYNC).2

/-- The queue `queue_cap2` after the messages (1, 1, [10]) and (2, 1, [20])
were sent, in that order. -/
def queue_cap2_sent : mesg_queue_t :=
  (mesg_queue_send record (mesg_queue_send record queue_cap2 [] 1 1 [10]).2.1 [] 2 1 [20]).2.1

/-- A fresh synchronous queue of capacity 1 and payload size 4. -/
def queue_sync : mesg_queue_t :=
  (mesg_queue_init 16 true mesg_queue_zero 4 1 mesgq_delivery_type_t.MESG_DELIVERY_SYNC).2

/-- The queue after `k` more sends of the empty message of type 1. -/
def send_times : Nat → mesg_queue_t → mesg_queue_t
  | 0, queue => queue
  | k + 1, queue => send_times k (mesg_queue_send record queue [] 1 0 []).2.1

/-! ## State table and engine (`hsm.h`, `hsm.c`) -/

/-- What a call of a state's event handler does: whether it reports the event
handled (the `bool_t` result), the caller context it leaves, and the targets of
the `hsm_state_transtion` calls it makes on the engine, in order. -/
structure event_result (Ctx : Type) where
  handled : Bool
  ctx : Ctx
  transitions : List Nat

/-- One entry of the state table, `hsm_state_info_t`.  An absent entry or exit
action is a `NULL` pointer.  The display name is not represented. -/
structure hsm_state_info_t (Ctx : Type) where
  state : Nat
  parent_state : Nat
  initial_substate : Nat
  has_substates : Nat
  hsm_state_entry : Option (Ctx → Ctx)
  hsm_state_exit : Option (Ctx → Ctx)
  hsm_state_event : Ctx → Nat → Nat → List Nat → event_result Ctx

/-- A diagnostic passed to the debug hook. -/
inductive Diag where
  | invalid_state (state : Nat)
  | unhandled (event cur_state : Nat)
  | deliver_failed (event : Nat)
  deriving DecidableEq, Repr

/-- One observable call made by the engine. -/
inductive Call where
  | exit (state : Nat)
  | entry (state : Nat)
  | event (state event len : Nat) (event_data : List Nat)
  | dprint (d : Diag)
  deriving DecidableEq, Repr

/-- The engine, `struct _hsm_engine` behind `hsm_engine_t`.  `hsm_debug_print` tells whether a debug
hook is installed.  `calls` is a ghost field: the calls made so far, oldest
first.  Names and the tracer are not represented. -/
structure hsm_engine_t (Ctx : Type) where
  cur_state : Nat
  next_state : Nat
  event_state : Nat
  num_states : Nat
  last_event : Nat
  state_info : List (hsm_state_info_t Ctx)
  ctx : Ctx
  in_state_transition : Bool
  mesg_q : mesg_queue_t
  hsm_debug_print : Bool
  calls : List Call

/-- The macro `HSM_DPRINT`: the diagnostic reaches the hook when one is installed. -/
def HSM_DPRINT {Ctx : Type} (hsm : hsm_engine_t Ctx) (d : Diag) : hsm_engine_t Ctx :=
  if hsm.hsm_debug_print then { hsm with calls := hsm.calls ++ [Call.dprint d] } else hsm

/-- Result of the validation of one table entry in `hsm_engine_create`. -/
inductive Check where
  | pass
  | null
  | stop (s : Status)
  deriving DecidableEq, Repr

/-- The loop-detection walk of `hsm_engine_create` (the `while` of lines
184-199) for the local variables `state_visited` and `state`. -/
def loop_detect {Ctx : Type} (state_info : List (hsm_state_info_t Ctx)) :
    Nat → List Nat → Nat → Check
  | fuel, state_visited, state =>
    if state = HSM_STATE_NONE then Check.pass
    else
      match fuel with
      | 0 => Check.stop Status.out_of_fuel
      | fuel + 1 =>
        match state_visited[state]? with
        | none => Check.stop Status.out_of_bounds
        | some v =>
          if v ≠ 0 then Check.null
          else
            let state_visited := state_visited.set state 1
            match state_info[state]? with
            | none => Check.stop Status.out_of_bounds
            | some si =>
              let next_state := si.parent_state
              if next_state ≠ HSM_STATE_NONE then
                match state_info[next_state]? with
                | none => Check.stop Status.out_of_bounds
                | some sn =>
                  if sn.initial_substate = 0 then Check.null
                  else loop_detect state_info fuel state_visited state
              else loop_detect state_info fuel state_visited state

/-- The body of the validation loop of `hsm_engine_create` for entry `i`. -/
def check_entry {Ctx : Type} (fuel : Nat) (state_info : List (hsm_state_info_t Ctx))
    (i : Nat) : Check :=
  let state_visited := List.replicate HSM_MAX_STATES 0
  match state_info[i]? with
  | none => Check.stop Status.out_of_bounds
  | some si =>
    if si.state ≥ HSM_MAX_STATES ∨ si.state ≠ i then Check.null
    else if si.has_substates ≠ 0 ∧ si.initial_substate = HSM_STATE_NONE then Check.null
    else if si.has_substates = 0 ∧ si.initial_substate ≠ HSM_STATE_NONE then Check.null
    else
      let sub_ok : Check :=
        if si.has_substates ≠ 0 then
          match state_info[si.initial_substate]? with
          | none => Check.stop Status.out_of_bounds
          | some ss => if ss.parent_state ≠ i then Check.null else Check.pass
        else Check.pass
      match sub_ok with
      | Check.pass => loop_detect state_info fuel state_visited si.state
      | r => r

/-- The validation loop `for (i = 0; i < num_states; i++)`, with `k` iterations
left. -/
def validate_loop {Ctx : Type} (fuel : Nat) (state_info : List (hsm_state_info_t Ctx)) :
    Nat → Nat → Check
  | 0, _ => Check.pass
  | k + 1, i =>
    match check_entry fuel state_info i with
    | Check.pass => validate_loop fuel state_info k (i + 1)
    | r => r

/-- `hsm_engine_create`.  `malloc_ok` and `qbuf_ok` tell whether the allocation
of the engine and of the queue storage succeed, `sizeof_mesg` is
`sizeof(mesg_t)`.  The result is the engine, or `none` for `NULL`.  The code
never stores the argument `ctx`: the field `ctx` of the engine stays as
`hsm_memset` left it, the null context, for which `default` stands. -/
def hsm_engine_create {Ctx : Type} [Inhabited Ctx] (fuel sizeof_mesg : Nat)
    (malloc_ok qbuf_ok : Bool)
    (ctx : Ctx) (init_state : Nat) (state_info : List (hsm_state_info_t Ctx))
    (num_states max_queued_event event_data_len flags : Nat) (hsm_debug_print : Bool) :
    Status × Option (hsm_engine_t Ctx) :=
  match validate_loop fuel state_info num_states 0 with
  | Check.stop s => (s, none)
  | Check.null => (Status.returned, none)
  | Check.pass =>
    if !malloc_ok then (Status.returned, none)
    else
      let hsm_engine : hsm_engine_t Ctx :=
        { cur_state := 0, next_state := 0, event_state := 0, num_states := 0, last_event := 0,
          state_info := [], ctx := default, in_state_transition := false,
          mesg_q := mesg_queue_zero, hsm_debug_print := false, calls := [] }
      let mq_type :=
        if flags % 2 = HSM_SYNCHRONOUS then mesgq_delivery_type_t.MESG_DELIVERY_SYNC
        else mesgq_delivery_type_t.MESG_DELIVERY_ASYNC
      let hsm_engine := { hsm_engine with
        mesg_q := (mesg_queue_init sizeof_mesg qbuf_ok hsm_engine.mesg_q event_data_len
          max_queued_event mq_type).2 }
      let hsm_engine := { hsm_engine with cur_state := init_state }
      let hsm_engine := { hsm_engine with num_states := num_states }
      let hsm_engine := { hsm_engine with state_info := state_info }
      let hsm_engine := { hsm_engine with last_event := HSM_EVENT_NONE }
      let hsm_engine := { hsm_engine with in_state_transition := false }
      let hsm_engine := { hsm_engine with hsm_debug_print := hsm_debug_print }
      (Status.returned, some hsm_engine)

/-- `hsm_get_lastevent`. -/
def hsm_get_lastevent {Ctx : Type} (hsm_engine : hsm_engine_t Ctx) : Nat := hsm_engine.last_event

/-- `hsm_get_curstate`. -/
def hsm_get_curstate {Ctx : Type} (hsm_engine : hsm_engine_t Ctx) : Nat := hsm_engine.cur_state

/-- `hsm_get_nextstate`. -/
def hsm_get_nextstate {Ctx : Type} (hsm_engine : hsm_engine_t Ctx) : Nat := hsm_engine.next_state

/-- The exit phase of `hsm_state_transtion` (the `while` of lines 356-361) for
the local variable `cur_state`. -/
def exit_loop {Ctx : Type} : Nat → hsm_engine_t Ctx → Nat → Status × hsm_engine_t Ctx
  | fuel, hsm_engine, cur_state =>
    if cur_state = HSM_STATE_NONE then (Status.returned, hsm_engine)
    else
      match fuel with
      | 0 => (Status.out_of_fuel, hsm_engine)
      | fuel + 1 =>
        match hsm_engine.state_info[cur_state]? with
        | none => (Status.out_of_bounds, hsm_engine)
        | some si =>
          let hsm_engine :=
            match si.hsm_state_exit with
            | some act => { hsm_engine with
                ctx := act hsm_engine.ctx, calls := hsm_engine.calls ++ [Call.exit cur_state] }
            | none => hsm_engine
          exit_loop fuel hsm_engine si.parent_state

/-- The entry phase of `hsm_state_transtion` (the `while` of lines 365-371) for
the local variable `cur_state`, whose final value is returned as well. -/
def entry_loop {Ctx : Type} : Nat → hsm_engine_t Ctx → Nat → Status × hsm_engine_t Ctx × Nat
  | fuel, hsm_engine, cur_state =>
    if cur_state = HSM_STATE_NONE then (Status.returned, hsm_engine, cur_state)
    else
      match fuel with
      | 0 => (Status.out_of_fuel, hsm_engine, cur_state)
      | fuel + 1 =>
        match hsm_engine.state_info[cur_state]? with
        | none => (Status.out_of_bounds, hsm_engine, cur_state)
        | some si =>
          let hsm_engine :=
            match si.hsm_state_entry with
            | some act => { hsm_engine with
                ctx := act hsm_engine.ctx, calls := hsm_engine.calls ++ [Call.entry cur_state] }
            | none => hsm_engine
          let hsm_engine := { hsm_engine with cur_state := cur_state }
          entry_loop fuel hsm_engine si.initial_substate

/-- `hsm_state_transtion`; `state` is the 16-bit target. -/
def hsm_state_transtion {Ctx : Type} (fuel : Nat) (hsm_engine : hsm_engine_t Ctx) (state : Nat) :
    Status × hsm_engine_t Ctx :=
  let cur_state := hsm_engine.cur_state
  if state = HSM_STATE_NONE ∨ state > HSM_MAX_STATES then
    (Status.returned, HSM_DPRINT hsm_engine (Diag.invalid_state state))
  else if hsm_engine.in_state_transition then (Status.assert_failed, hsm_engine)
  else
    let hsm_engine := { hsm_engine with in_state_transition := true }
    let hsm_engine := { hsm_engine with next_state := state % 256 }
    match exit_loop fuel hsm_engine cur_state with
    | (Status.returned, hsm_engine) =>
      match entry_loop fuel hsm_engine (state % 256) with
      | (Status.returned, hsm_engine, cur_state) =>
        let hsm_engine := { hsm_engine with cur_state := cur_state }
        (Status.returned, { hsm_engine with in_state_transition := false })
      | (s, hsm_engine, _) => (s, hsm_engine)
    | r => r

/-- The `hsm_state_transtion` calls that an event handler makes, in order. -/
def run_transitions {Ctx : Type} (fuel : Nat) :
    hsm_engine_t Ctx → List Nat → Status × hsm_engine_t Ctx
  | hsm_engine, [] => (Status.returned, hsm_engine)
  | hsm_engine, state :: rest =>
    match hsm_state_transtion fuel hsm_engine state with
    | (Status.returned, hsm_engine) => run_transitions fuel hsm_engine rest
    | r => r

/-- The loop of `hsm_dispatch_sync_internal` (lines 321-325) for the local
variables `event_handled` and `state`; the final `event_handled` is returned
as well.  The fuel of the loop bounds its own iterations; the transitions a
handler makes run on `tfuel`. -/
def dispatch_loop {Ctx : Type} (event len : Nat) (event_data : List Nat) (tfuel : Nat) :
    Nat → hsm_engine_t Ctx → Bool → Nat → Status × hsm_engine_t Ctx × Bool
  | fuel, hsm_engine, event_handled, state =>
    if event_handled ∨ state = HSM_STATE_NONE then (Status.returned, hsm_engine, event_handled)
    else
      match fuel with
      | 0 => (Status.out_of_fuel, hsm_engine, event_handled)
      | fuel + 1 =>
        let hsm_engine := { hsm_engine with event_state := state }
        match hsm_engine.state_info[state]? with
        | none => (Status.out_of_bounds, hsm_engine, event_handled)
        | some si =>
          let r := si.hsm_state_event hsm_engine.ctx event len event_data
          let hsm_engine := { hsm_engine with
            ctx := r.ctx, calls := hsm_engine.calls ++ [Call.event state event len event_data] }
          match run_transitions tfuel hsm_engine r.transitions with
          | (Status.returned, hsm_engine) =>
            match hsm_engine.state_info[state]? with
            | none => (Status.out_of_bounds, hsm_engine, r.handled)
            | some si =>
              dispatch_loop event len event_data tfuel fuel hsm_engine r.handled si.parent_state
          | (s, hsm_engine) => (s, hsm_engine, r.handled)

/-- `hsm_dispatch_sync_internal`; `event` and `len` are 16-bit values. -/
def hsm_dispatch_sync_internal {Ctx : Type} (fuel : Nat) (hsm_engine : hsm_engine_t Ctx)
    (event len : Nat) (event_data : List Nat) : Status × hsm_engine_t Ctx :=
  let hsm_engine := { hsm_engine with last_event := event % 256 }
  let state := hsm_engine.cur_state
  match dispatch_loop event len event_data fuel fuel hsm_engine false state with
  | (Status.returned, hsm_engine, event_handled) =>
    if !event_handled then
      (Status.returned, HSM_DPRINT hsm_engine (Diag.unhandled event hsm_engine.cur_state))
    else (Status.returned, hsm_engine)
  | (s, hsm_engine, _) => (s, hsm_engine)

/-- `hsm_dispatch`: the event goes to the queue of the engine, whose registered
handler is `hsm_dispatch_sync_internal` with the engine as context.  The
diagnostic argument `name[cur_state]` is not represented. -/
def hsm_dispatch {Ctx : Type} (fuel : Nat) (hsm_engine : hsm_engine_t Ctx)
    (event len : Nat) (event_data : List Nat) : Status × hsm_engine_t Ctx :=
  match mesg_queue_send
      (fun (w : Status × hsm_engine_t Ctx) ev ln d => hsm_dispatch_sync_internal fuel w.2 ev ln d)
      hsm_engine.mesg_q (Status.returned, hsm_engine) event len event_data with
  | (ret, queue, Status.returned, hsm_engine) =>
    let hsm_engine := { hsm_engine with mesg_q := queue }
    if ret ≠ 0 then (Status.returned, HSM_DPRINT hsm_engine (Diag.deliver_failed event))
    else (Status.returned, hsm_engine)
  | (_, queue, s, hsm_engine) => (s, { hsm_engine with mesg_q := queue })

/-- What a call of a flush handler does: the context of its own that it leaves,
and the targets of the `hsm_state_transtion` calls it makes on the engine
handle it is called with, in order. -/
structure flush_result (W : Type) where
  ctx : W
  transitions : List Nat

/-- One call of the flush handler during a reset.  `mesg_queue_drain` calls the
handler with `queue->ctx`, which `hsm_engine_create` sets to the engine
handle: the handler acts on the engine through the transitions it makes, and
on a context of its own.  Once a transition has stopped the run, no further
handler call is represented. -/
def flush_call {Ctx W : Type} (fuel : Nat)
    (handler : W → Nat → Nat → List Nat → flush_result W) :
    mesg_handler_t (Status × hsm_engine_t Ctx × W) :=
  fun w mesg_type mesg_len mesg =>
    match w with
    | (Status.returned, e, c) =>
      let r := handler c mesg_type mesg_len mesg
      match run_transitions fuel e r.transitions with
      | (s, e) => (s, e, r.ctx)
    | w => w

/-- `hsm_engine_reset`; `initial_state` is an 8-bit value.  The context of the
flush handler is returned as well. -/
def hsm_engine_reset {Ctx W : Type} (fuel : Nat) (hsm_engine : hsm_engine_t Ctx)
    (initial_state : Nat) (handler : W → Nat → Nat → List Nat → flush_result W) (ctx : W) :
    Status × hsm_engine_t Ctx × W :=
  match mesg_queue_drain fuel (flush_call fuel handler) hsm_engine.mesg_q
      (Status.returned, hsm_engine, ctx) with
  | (Status.returned, queue, Status.returned, hsm_engine, ctx) =>
    let hsm_engine := { hsm_engine with mesg_q := queue }
    (Status.returned, { hsm_engine with cur_state := initial_state }, ctx)
  | (Status.returned, queue, s, hsm_engine, ctx) => (s, { hsm_engine with mesg_q := queue }, ctx)
  | (s, queue, _, hsm_engine, ctx) => (s, { hsm_engine with mesg_q := queue }, ctx)

/-! ## The hierarchy of a table -/

/-- The states reached from `s` by following the link `next` until
`HSM_STATE_NONE`, `s` first; `none` when the walk leaves the table or is
longer than `fuel`. -/
def link_chain {Ctx : Type} (next : hsm_state_info_t Ctx → Nat)
    (state_info : List (hsm_state_info_t Ctx)) : Nat → Nat → Option (List Nat)
  | fuel, s =>
    if s = HSM_STATE_NONE then some []
    else
      match fuel with
      | 0 => none
      | fuel + 1 =>
        match state_info[s]? with
        | none => none
        | some si => (link_chain next state_info fuel (next si)).map (fun l => s :: l)

/-- The chain `s, parent(s), parent(parent(s)), ...` up to the root. -/
def parent_chain {Ctx : Type} (state_info : List (hsm_state_info_t Ctx)) (fuel s : Nat) :
    Option (List Nat) :=
  link_chain (fun si => si.parent_state) state_info fuel s

/-- The chain `s, initial_substate(s), ...` down to the leaf. -/
def substate_chain {Ctx : Type} (state_info : List (hsm_state_info_t Ctx)) (fuel s : Nat) :
    Option (List Nat) :=
  link_chain (fun si => si.initial_substate) state_info fuel s

/-- The validity conditions of a state table: each id equals its index and is
below `HSM_MAX_STATES`; `has_substates` is set exactly when `initial_substate`
is not `HSM_STATE_NONE`; the parent of an initial substate is the declaring
state; every parent chain reaches `HSM_STATE_NONE` without revisiting a state. -/
structure ValidTable {Ctx : Type} (state_info : List (hsm_state_info_t Ctx)) : Prop where
  id_eq : ∀ (i : Nat) (si : hsm_state_info_t Ctx), state_info[i]? = some si → si.state = i ∧ si.state < HSM_MAX_STATES
  sub_iff : ∀ (i : Nat) (si : hsm_state_info_t Ctx), state_info[i]? = some si →
    (si.has_substates ≠ 0 ↔ si.initial_substate ≠ HSM_STATE_NONE)
  sub_parent : ∀ (i : Nat) (si : hsm_state_info_t Ctx), state_info[i]? = some si →
    si.initial_substate ≠ HSM_STATE_NONE →
    ∃ ss : hsm_state_info_t Ctx, state_info[si.initial_substate]? = some ss ∧ ss.parent_state = i
  acyclic : ∀ i, i < state_info.length →
    ∃ fuel l, parent_chain state_info fuel i = some l ∧ l.Nodup

/-- Whether state `s` of the table has an exit action. -/
def has_exit {Ctx : Type} (state_info : List (hsm_state_info_t Ctx)) (s : Nat) : Bool :=
  match state_info[s]? with
  | some si => si.hsm_state_exit.isSome
  | none => false

/-- Whether state `s` of the table has an entry action. -/
def has_entry {Ctx : Type} (state_info : List (hsm_state_info_t Ctx)) (s : Nat) : Bool :=
  match state_info[s]? with
  | some si => si.hsm_state_entry.isSome
  | none => false

/-- The exit actions present along a list of states, in order. -/
def exit_calls {Ctx : Type} (state_info : List (hsm_state_info_t Ctx)) (l : List Nat) :
    List Call :=
  (l.filter (has_exit state_info)).map Call.exit

/-- The entry actions present along a list of states, in order. -/
def entry_calls {Ctx : Type} (state_info : List (hsm_state_info_t Ctx)) (l : List Nat) :
    List Call :=
  (l.filter (has_entry state_info)).map Call.entry

/-- Bubbling of an event along a list of states, as the spec words it: the
handler of each state in turn, each on the context its predecessor left,
stopping after the first one that reports the event handled.  The result
lists the states whose handler runs, each with what the handler reports. -/
def bubble {Ctx : Type} (state_info : List (hsm_state_info_t Ctx)) (event len : Nat)
    (event_data : List Nat) : Ctx → List Nat → List (Nat × Bool)
  | _, [] => []
  | ctx, s :: rest =>
    match state_info[s]? with
    | none => []
    | some si =>
      let r := si.hsm_state_event ctx event len event_data
      (s, r.handled) :: (if r.handled then [] else bubble state_info event len event_data r.ctx rest)

/-- The transitions that the handlers of `bubble` make, handler by handler. -/
def bubble_transitions {Ctx : Type} (state_info : List (hsm_state_info_t Ctx)) (event len : Nat)
    (event_data : List Nat) : Ctx → List Nat → List (List Nat)
  | _, [] => []
  | ctx, s :: rest =>
    match state_info[s]? with
    | none => []
    | some si =>
      let r := si.hsm_state_event ctx event len event_data
      r.transitions ::
        (if r.handled then [] else bubble_transitions state_info event len event_data r.ctx rest)

/-- The handler calls for one event along a list of states, in order. -/
def event_calls (event len : Nat) (event_data : List Nat) (states : List Nat) : List Call :=
  states.map (fun s => Call.event s event len event_data)

/-- Whether a call is a diagnostic through the debug hook. -/
def is_dprint : Call → Bool
  | Call.dprint _ => true
  | _ => false

/-! ## Tables used as concrete instances -/

/-- An event handler that reports exactly the event `ev` handled and counts its
calls in the context. -/
def handles (ev : Nat) : Nat → Nat → Nat → List Nat → event_result Nat :=
  fun ctx event _ _ => { handled := decide (event = ev), ctx := ctx + 1, transitions := [] }

/-- A table with one root state and no actions. -/
def single_table : List (hsm_state_info_t Nat) :=
  [ { state := 0, parent_state := HSM_STATE_NONE, initial_substate := HSM_STATE_NONE,
      has_substates := 0, hsm_state_entry := none, hsm_state_exit := none,
      hsm_state_event := handles 7 } ]

/-- A three-level table: root 0 with initial substate 1, whose initial substate
is the leaf 2; state 3 is a second child of the root. -/
def demo_table : List (hsm_state_info_t Nat) :=
  [ { state := 0, parent_state := HSM_STATE_NONE, initial_substate := 1, has_substates := 1,
      hsm_state_entry := some (fun c => c + 10), hsm_state_exit := some (fun c => c + 100),
      hsm_state_event := handles 7 },
    { state := 1, parent_state := 0, initial_substate := 2, has_substates := 1,
      hsm_state_entry := some (fun c => c + 20), hsm_state_exit := none,
      hsm_state_event := handles 5 },
    { state := 2, parent_state := 1, initial_substate := HSM_STATE_NONE, has_substates := 0,
      hsm_state_entry := none, hsm_state_exit := some (fun c => c + 300),
      hsm_state_event := handles 3 },
    { state := 3, parent_state := 0, initial_substate := HSM_STATE_NONE, has_substates := 0,
      hsm_state_entry := some (fun c => c + 40), hsm_state_exit := some (fun c => c + 400),
      hsm_state_event := handles 9 } ]

/-- An engine at rest on `state_info` with current state `cur_state`. -/
def engine_at (state_info : List (hsm_state_info_t Nat)) (cur_state : Nat) : hsm_engine_t Nat :=
  { cur_state := cur_state, next_state := 0, event_state := 0,
    num_states := state_info.length, last_event := HSM_EVENT_NONE, state_info := state_info,
    ctx := 0, in_state_transition := false, mesg_q := mesg_queue_zero,
    hsm_debug_print := true, calls := [] }

/-- The event of the traffic-light scenario. -/
def TIMER_EXPIRED : Nat := 1

/-- The handler of a light: `TIMER_EXPIRED` is answered by a transition to
`next` and reported handled. -/
def light (next : Nat) : Nat → Nat → Nat → List Nat → event_result Nat :=
  fun ctx event _ _ =>
    if event = TIMER_EXPIRED then { handled := true, ctx := ctx, transitions := [next] }
    else { handled := false, ctx := ctx, transitions := [] }

/-- The traffic-light table: Root 0 (initial substate Red), Red 1, Green 2 and
Yellow 3 with parent Root; every light has an entry and an exit action. -/
def traffic_table : List (hsm_state_info_t Nat) :=
  [ { state := 0, parent_state := HSM_STATE_NONE, initial_substate := 1, has_substates := 1,
      hsm_state_entry := none, hsm_state_exit := none, hsm_state_event := handles 0 },
    { state := 1, parent_state := 0, initial_substate := HSM_STATE_NONE, has_substates := 0,
      hsm_state_entry := some (fun c => c + 1), hsm_state_exit := some (fun c => c + 1),
      hsm_state_event := light 2 },
    { state := 2, parent_state := 0, initial_substate := HSM_STATE_NONE, has_substates := 0,
      hsm_state_entry := some (fun c => c + 1), hsm_state_exit := some (fun c => c + 1),
      hsm_state_event := light 3 },
    { state := 3, parent_state := 0, initial_substate := HSM_STATE_NONE, has_substates := 0,
      hsm_state_entry := some (fun c => c + 1), hsm_state_exit := some (fun c => c + 1),
      hsm_state_event := light 1 } ]

/-- The traffic-light engine as construction would leave it: synchronous
delivery, initial state Red. -/
def traffic_engine : hsm_engine_t Nat :=
  { cur_state := 1, next_state := 0, event_state := 0, num_states := 4,
    last_event := HSM_EVENT_NONE, state_info := traffic_table, ctx := 0,
    in_state_transition := false, mesg_q := queue_sync, hsm_debug_print := true, calls := [] }

/-- The traffic-light engine after the first `TIMER_EXPIRED`. -/
def traffic_step1 : hsm_engine_t Nat := (hsm_dispatch 4 traffic_engine TIMER_EXPIRED 0 []).2

/-- The traffic-light engine after the second `TIMER_EXPIRED`. -/
def traffic_step2 : hsm_engine_t Nat := (hsm_dispatch 4 traffic_step1 TIMER_EXPIRED 0 []).2

/-- The traffic-light engine after the third `TIMER_EXPIRED`. -/
def traffic_step3 : hsm_engine_t Nat := (hsm_dispatch 4 traffic_step2 TIMER_EXPIRED 0 []).2

/-- A one-entry table whose root names state 7 as parent. -/
def oob_parent_table : List (hsm_state_info_t Nat) :=
  [ { state := 0, parent_state := 7, initial_substate := HSM_STATE_NONE, has_substates := 0,
      hsm_state_entry := none, hsm_state_exit := none, hsm_state_event := handles 7 } ]

/-- A one-entry table whose root names state 5 as initial substate. -/
def oob_sub_table : List (hsm_state_info_t Nat) :=
  [ { state := 0, parent_state := HSM_STATE_NONE, initial_substate := 5, has_substates := 1,
      hsm_state_entry := none, hsm_state_exit := none, hsm_state_event := handles 7 } ]

/-- A handler that answers every event with a transition to `next` and reports
it not handled. -/
def restless (next : Nat) : Nat → Nat → Nat → List Nat → event_result Nat :=
  fun ctx _ _ _ => { handled := false, ctx := ctx, transitions := [next] }

/-- Two root states without actions; the handler of each makes a transition to
the other and reports the event not handled. -/
def two_roots_table : List (hsm_state_info_t Nat) :=
  [ { state := 0, parent_state := HSM_STATE_NONE, initial_substate := HSM_STATE_NONE,
      has_substates := 0, hsm_state_entry := none, hsm_state_exit := none,
      hsm_state_event := restless 1 },
    { state := 1, parent_state := HSM_STATE_NONE, initial_substate := HSM_STATE_NONE,
      has_substates := 0, hsm_state_entry := none, hsm_state_exit := none,
      hsm_state_event := restless 0 } ]

/-- A flush handler that records the messages it is called with, oldest first,
and leaves the engine alone. -/
def record_flush : List mesg_t → Nat → Nat → List Nat → flush_result (List mesg_t) :=
  fun ctx mesg_type mesg_len mesg =>
    { ctx := ctx ++ [⟨mesg_type, mesg_len, mesg⟩], transitions := [] }

/-- An engine at rest on `demo_table` with the fresh asynchronous queue of
capacity 2. -/
def async_engine : hsm_engine_t Nat := { engine_at demo_table 2 with mesg_q := queue_cap2 }

/-- The engine `async_engine` after `hsm_dispatch` of the event (1, 1, [10]). -/
def async_step1 : hsm_engine_t Nat := (hsm_dispatch 4 async_engine 1 1 [10]).2

/-- The engine `async_step1` after `hsm_dispatch` of the event (2, 1, [20]). -/
def async_step2 : hsm_engine_t Nat := (hsm_dispatch 4 async_step1 2 1 [20]).2

/-! ## Chains -/

theorem link_chain_mono {Ctx : Type} (next : hsm_state_info_t Ctx → Nat)
    (tbl : List (hsm_state_info_t Ctx)) :
    ∀ (f s : Nat) (l : List Nat), link_chain next tbl f s = some l →
      ∀ g, f ≤ g → link_chain next tbl g s = some l := by
  intro f
  induction f with
  | zero =>
    intro s l h g _
    unfold link_chain at h
    split at h
    · rename_i hs
      unfold link_chain
      simpa [hs] using h
    · simp at h
  | succ f ih =>
    intro s l h g hg
    unfold link_chain at h
    split at h
    · rename_i hs
      unfold link_chain
      simpa [hs] using h
    · rename_i hs
      obtain ⟨g, rfl⟩ : ∃ g', g = g' + 1 := ⟨g - 1, by omega⟩
      unfold link_chain
      simp only [hs, if_false]
      cases hsi : tbl[s]? with
      | none => simp [hsi] at h
      | some si =>
        simp only [hsi] at h ⊢
        cases hr : link_chain next tbl f (next si) with
        | none => simp [hr] at h
        | some l1 =>
          simp only [hr, Option.map_some'] at h
          rw [ih _ _ hr g (by omega)]
          simpa using h

theorem link_chain_inv {Ctx : Type} (next : hsm_state_info_t Ctx → Nat)
    (tbl : List (hsm_state_info_t Ctx)) (f s : Nat) (l : List Nat)
    (h : link_chain next tbl f s = some l) :
    (s = HSM_STATE_NONE ∧ l = []) ∨
    (s ≠ HSM_STATE_NONE ∧ ∃ g si l1, f = g + 1 ∧ tbl[s]? = some si ∧
      link_chain next tbl g (next si) = some l1 ∧ l = s :: l1) := by
  unfold link_chain at h
  split at h
  · rename_i hs
    left
    exact ⟨hs, by simpa using h.symm⟩
  · rename_i hs
    right
    refine ⟨hs, ?_⟩
    cases f with
    | zero => simp at h
    | succ g =>
      simp only at h
      cases hsi : tbl[s]? with
      | none => simp [hsi] at h
      | some si =>
        simp only [hsi] at h
        cases hr : link_chain next tbl g (next si) with
        | none => simp [hr] at h
        | some l1 =>
          simp only [hr, Option.map_some'] at h
          exact ⟨g, si, l1, rfl, rfl, hr, by simpa using h.symm⟩

theorem link_chain_none {Ctx : Type} (next : hsm_state_info_t Ctx → Nat)
    (tbl : List (hsm_state_info_t Ctx)) (f : Nat) :
    link_chain next tbl f HSM_STATE_NONE = some [] := by
  unfold link_chain
  simp

theorem link_chain_step {Ctx : Type} (next : hsm_state_info_t Ctx → Nat)
    (tbl : List (hsm_state_info_t Ctx)) (f s : Nat) (si : hsm_state_info_t Ctx)
    (hs : s ≠ HSM_STATE_NONE) (hsi : tbl[s]? = some si) :
    link_chain next tbl (f + 1) s = (link_chain next tbl f (next si)).map (fun l => s :: l) := by
  rw [link_chain]
  simp only [hs, if_false, hsi]

theorem link_chain_det {Ctx : Type} (next : hsm_state_info_t Ctx → Nat)
    (tbl : List (hsm_state_info_t Ctx)) (f g s : Nat) (l1 l2 : List Nat)
    (h1 : link_chain next tbl f s = some l1) (h2 : link_chain next tbl g s = some l2) :
    l1 = l2 := by
  have a := link_chain_mono next tbl f s l1 h1 (max f g) (le_max_left _ _)
  have b := link_chain_mono next tbl g s l2 h2 (max f g) (le_max_right _ _)
  rw [a] at b
  exact Option.some.inj b

theorem link_chain_bounds {Ctx : Type} (next : hsm_state_info_t Ctx → Nat)
    (tbl : List (hsm_state_info_t Ctx)) :
    ∀ (f s : Nat) (l : List Nat), link_chain next tbl f s = some l →
      l.length ≤ f ∧ (∀ x ∈ l, x < tbl.length) ∧ link_chain next tbl l.length s = some l := by
  intro f
  induction f with
  | zero =>
    intro s l h
    rcases link_chain_inv next tbl 0 s l h with ⟨hs, hl⟩ | ⟨_, g, _, _, hf, _⟩
    · subst hl
      subst hs
      exact ⟨by simp, by simp, link_chain_none next tbl _⟩
    · omega
  | succ f ih =>
    intro s l h
    rcases link_chain_inv next tbl _ s l h with ⟨hs, hl⟩ | ⟨hs, g, si, l1, hf, hsi, hr, hl⟩
    · subst hl
      subst hs
      exact ⟨by simp, by simp, link_chain_none next tbl _⟩
    · have hg : g = f := by omega
      subst hg
      obtain ⟨h1, h2, h3⟩ := ih _ _ hr
      subst hl
      refine ⟨by simp; omega, ?_, ?_⟩
      · intro x hx
        rcases List.mem_cons.mp hx with rfl | hx
        · by_contra hlt
          rw [List.getElem?_eq_none (by omega)] at hsi
          simp at hsi
        · exact h2 x hx
      · simp only [List.length_cons]
        rw [link_chain_step next tbl _ s si hs hsi, h3]
        rfl

theorem nodup_length_le (n : Nat) (l : List Nat) (hn : l.Nodup) (hb : ∀ x ∈ l, x < n) :
    l.length ≤ n := by
  have hsub : l ⊆ List.range n := fun x hx => List.mem_range.mpr (hb x hx)
  have := (List.subperm_of_subset hn hsub).length_le
  simpa using this

/-- In a valid table the parent chain of a state of the table is no longer
than the table. -/
theorem parent_chain_total {Ctx : Type} (tbl : List (hsm_state_info_t Ctx)) (hv : ValidTable tbl)
    (s : Nat) (hs : s < tbl.length ∨ s = HSM_STATE_NONE) :
    ∃ l, parent_chain tbl tbl.length s = some l ∧ l.Nodup ∧ l.length ≤ tbl.length := by
  rcases hs with hs | hs
  · obtain ⟨f, l, hl, hn⟩ := hv.acyclic s hs
    obtain ⟨_, hb, hx⟩ := link_chain_bounds _ tbl f s l hl
    have hlen := nodup_length_le tbl.length l hn hb
    exact ⟨l, link_chain_mono _ tbl _ s l hx _ hlen, hn, hlen⟩
  · subst hs
    exact ⟨[], link_chain_none _ tbl _, List.nodup_nil, by simp⟩

theorem valid_state_lt {Ctx : Type} (tbl : List (hsm_state_info_t Ctx)) (hv : ValidTable tbl)
    (s : Nat) (hs : s < tbl.length) : s < HSM_MAX_STATES := by
  have hsi : tbl[s]? = some tbl[s] := List.getElem?_eq_getElem hs
  have := hv.id_eq s _ hsi
  omega

theorem lookup_lt {Ctx : Type} (tbl : List (hsm_state_info_t Ctx)) (s : Nat)
    (si : hsm_state_info_t Ctx) (h : tbl[s]? = some si) : s < tbl.length := by
  by_contra hlt
  rw [List.getElem?_eq_none (by omega)] at h
  simp at h

/-- In a valid table the initial-substate chain of a state ends, and every
state on it has the parent chain of the start as the tail of its own. -/
theorem substate_chain_descends {Ctx : Type} (tbl : List (hsm_state_info_t Ctx))
    (hv : ValidTable tbl) :
    ∀ (k s fp : Nat) (lp : List Nat), s < tbl.length → parent_chain tbl fp s = some lp →
      tbl.length - lp.length ≤ k →
      ∃ l, substate_chain tbl (k + 1) s = some l ∧
        ∀ d ∈ l, ∃ pre g, parent_chain tbl g d = some (pre ++ lp) := by
  intro k
  induction k with
  | zero =>
    intro s fp lp hs hlp hk
    have hsi : tbl[s]? = some tbl[s] := List.getElem?_eq_getElem hs
    have hne : s ≠ HSM_STATE_NONE := by
      have := valid_state_lt tbl hv s hs
      unfold HSM_MAX_STATES at this
      unfold HSM_STATE_NONE
      omega
    by_cases hi : (tbl[s]).initial_substate = HSM_STATE_NONE
    · refine ⟨[s], ?_, ?_⟩
      · unfold substate_chain
        rw [link_chain_step _ tbl _ s _ hne hsi]
        simp only [hi]
        rw [link_chain_none]
        rfl
      · intro d hd
        simp only [List.mem_singleton] at hd
        subst hd
        exact ⟨[], fp, by simpa using hlp⟩
    · exfalso
      obtain ⟨ss, hss, hpar⟩ := hv.sub_parent s _ hsi hi
      have hch : parent_chain tbl (fp + 1) (tbl[s]).initial_substate
          = some ((tbl[s]).initial_substate :: lp) := by
        unfold parent_chain
        rw [link_chain_step _ tbl _ _ ss hi hss]
        simp only [hpar]
        unfold parent_chain at hlp
        rw [hlp]
        rfl
      obtain ⟨f2, l2, hl2, hn2⟩ := hv.acyclic _ (lookup_lt tbl _ ss hss)
      have heq := link_chain_det _ tbl _ _ _ _ _ hl2 hch
      subst heq
      obtain ⟨_, hb, _⟩ := link_chain_bounds _ tbl _ _ _ hl2
      have := nodup_length_le tbl.length _ hn2 hb
      simp only [List.length_cons] at this
      omega
  | succ k ih =>
    intro s fp lp hs hlp hk
    have hsi : tbl[s]? = some tbl[s] := List.getElem?_eq_getElem hs
    have hne : s ≠ HSM_STATE_NONE := by
      have := valid_state_lt tbl hv s hs
      unfold HSM_MAX_STATES at this
      unfold HSM_STATE_NONE
      omega
    by_cases hi : (tbl[s]).initial_substate = HSM_STATE_NONE
    · refine ⟨[s], ?_, ?_⟩
      · unfold substate_chain
        rw [link_chain_step _ tbl _ s _ hne hsi]
        simp only [hi]
        rw [link_chain_none]
        rfl
      · intro d hd
        simp only [List.mem_singleton] at hd
        subst hd
        exact ⟨[], fp, by simpa using hlp⟩
    · obtain ⟨ss, hss, hpar⟩ := hv.sub_parent s _ hsi hi
      have hch : parent_chain tbl (fp + 1) (tbl[s]).initial_substate
          = some ((tbl[s]).initial_substate :: lp) := by
        unfold parent_chain
        rw [link_chain_step _ tbl _ _ ss hi hss]
        simp only [hpar]
        unfold parent_chain at hlp
        rw [hlp]
        rfl
      obtain ⟨f2, l2, hl2, hn2⟩ := hv.acyclic _ (lookup_lt tbl _ ss hss)
      have heq := link_chain_det _ tbl _ _ _ _ _ hl2 hch
      subst heq
      obtain ⟨_, hb, _⟩ := link_chain_bounds _ tbl _ _ _ hl2
      have hlen := nodup_length_le tbl.length _ hn2 hb
      simp only [List.length_cons] at hlen
      obtain ⟨l, hl, hd⟩ := ih _ (fp + 1) _ (lookup_lt tbl _ ss hss) hch
        (by simp only [List.length_cons]; omega)
      refine ⟨s :: l, ?_, ?_⟩
      · unfold substate_chain
        rw [link_chain_step _ tbl _ s _ hne hsi]
        unfold substate_chain at hl
        simp only [hl]
        rfl
      · intro d hmem
        rcases List.mem_cons.mp hmem with rfl | hmem
        · exact ⟨[], fp, by simpa using hlp⟩
        · obtain ⟨pre, g, hg⟩ := hd d hmem
          exact ⟨pre ++ [(tbl[s]).initial_substate], g, by simpa using hg⟩

theorem valid_state_ne_none {Ctx : Type} (tbl : List (hsm_state_info_t Ctx))
    (hv : ValidTable tbl) (s : Nat) (hs : s < tbl.length) : s ≠ HSM_STATE_NONE := by
  have := valid_state_lt tbl hv s hs
  unfold HSM_MAX_STATES at this
  unfold HSM_STATE_NONE
  omega

/-- In a valid table the initial-substate chain of a state of the table is no
longer than the table and meets no proper ancestor of that state. -/
theorem substate_chain_total {Ctx : Type} (tbl : List (hsm_state_info_t Ctx))
    (hv : ValidTable tbl) (t : Nat) (ht : t < tbl.length) :
    ∃ down, substate_chain tbl tbl.length t = some down ∧
      ∀ anc, parent_chain tbl tbl.length t = some (t :: anc) → ∀ a ∈ anc, a ∉ down := by
  obtain ⟨lp, hlp, hnd, hlen⟩ := parent_chain_total tbl hv t (Or.inl ht)
  have hne := valid_state_ne_none tbl hv t ht
  rcases link_chain_inv _ tbl _ t lp hlp with ⟨h0, _⟩ | ⟨_, g, si, l1, hg, hsi, hr, hl⟩
  · exact absurd h0 hne
  · subst hl
    obtain ⟨down, hdown, hdesc⟩ :=
      substate_chain_descends tbl hv (tbl.length - (t :: l1).length) t _ _ ht hlp le_rfl
    refine ⟨down, ?_, ?_⟩
    · unfold substate_chain at hdown ⊢
      refine link_chain_mono _ tbl _ t down hdown _ ?_
      simp only [List.length_cons] at hlen ⊢
      omega
    · intro anc hanc a ha hmem
      have heq : t :: anc = t :: l1 := Option.some.inj (hanc.symm.trans hlp)
      have hanc1 : anc = l1 := List.tail_eq_of_cons_eq heq
      subst hanc1
      obtain ⟨pre, f2, hpa⟩ := hdesc a hmem
      obtain ⟨_, hb, _⟩ := link_chain_bounds _ tbl _ _ _ hlp
      have hat : a < tbl.length := hb a (List.mem_cons_of_mem _ ha)
      have hane := valid_state_ne_none tbl hv a hat
      obtain ⟨f3, l3, hl3, hn3⟩ := hv.acyclic a hat
      have h3 := link_chain_det _ tbl _ _ _ _ _ hl3 hpa
      subst h3
      rcases link_chain_inv _ tbl _ a _ hpa with ⟨h0, _⟩ | ⟨_, _, _, l4, _, _, _, hl4⟩
      · exact absurd h0 hane
      · cases pre with
        | nil =>
          simp only [List.nil_append] at hl4
          have hta : t = a := List.head_eq_of_cons_eq hl4
          subst hta
          exact (List.nodup_cons.mp hnd).1 ha
        | cons p pre1 =>
          simp only [List.cons_append] at hl4 hn3
          have hpa1 : p = a := List.head_eq_of_cons_eq hl4
          subst hpa1
          exact (List.nodup_cons.mp hn3).1
            (List.mem_append_right _ (List.mem_cons_of_mem _ ha))

/-! ## The two phases of a transition -/

theorem exit_calls_cons {Ctx : Type} (tbl : List (hsm_state_info_t Ctx)) (s : Nat)
    (l : List Nat) :
    exit_calls tbl (s :: l) = (if has_exit tbl s then [Call.exit s] else []) ++ exit_calls tbl l := by
  unfold exit_calls
  by_cases h : has_exit tbl s = true <;> simp [List.filter_cons, h]

theorem entry_calls_cons {Ctx : Type} (tbl : List (hsm_state_info_t Ctx)) (s : Nat)
    (l : List Nat) :
    entry_calls tbl (s :: l)
      = (if has_entry tbl s then [Call.entry s] else []) ++ entry_calls tbl l := by
  unfold entry_calls
  by_cases h : has_entry tbl s = true <;> simp [List.filter_cons, h]

/-- The exit phase runs the exit actions along the parent chain and changes
nothing but the caller context and the record of calls. -/
theorem exit_loop_spec {Ctx : Type} :
    ∀ (f : Nat) (e : hsm_engine_t Ctx) (c : Nat) (l : List Nat),
      parent_chain e.state_info f c = some l →
      ∃ ctx1, exit_loop f e c = (Status.returned,
        { e with ctx := ctx1, calls := e.calls ++ exit_calls e.state_info l }) := by
  intro f
  induction f with
  | zero =>
    intro e c l h
    rcases link_chain_inv _ _ _ c l h with ⟨hc, hl⟩ | ⟨_, g, _, _, hg, _⟩
    · subst hl
      refine ⟨e.ctx, ?_⟩
      unfold exit_loop
      simp [hc, exit_calls]
    · omega
  | succ f ih =>
    intro e c l h
    rcases link_chain_inv _ _ _ c l h with ⟨hc, hl⟩ | ⟨hc, g, si, l1, hg, hsi, hr, hl⟩
    · subst hl
      refine ⟨e.ctx, ?_⟩
      unfold exit_loop
      simp [hc, exit_calls]
    · have hgf : g = f := by omega
      subst hgf
      subst hl
      unfold exit_loop
      simp only [hc, if_false, hsi]
      cases hact : si.hsm_state_exit with
      | none =>
        obtain ⟨ctx1, h1⟩ := ih e si.parent_state l1 hr
        refine ⟨ctx1, ?_⟩
        simp only [h1, exit_calls_cons, has_exit, hsi, hact]
        simp
      | some act =>
        obtain ⟨ctx1, h1⟩ := ih { e with
          ctx := act e.ctx, calls := e.calls ++ [Call.exit c] } si.parent_state l1 hr
        refine ⟨ctx1, ?_⟩
        simp only [h1, exit_calls_cons, has_exit, hsi, hact]
        simp

theorem getLast_getD_cons (t d : Nat) (l : List Nat) :
    (t :: l).getLast?.getD d = l.getLast?.getD t := by
  cases l with
  | nil => simp
  | cons a l =>
    rw [List.getLast?_cons_cons, List.getLast?_eq_getLast _ (List.cons_ne_nil a l)]
    rfl

/-- The entry phase runs the entry actions along the initial-substate chain,
leaves the last state of the chain in `cur_state`, and ends with the local
variable at `HSM_STATE_NONE`. -/
theorem entry_loop_spec {Ctx : Type} :
    ∀ (f : Nat) (e : hsm_engine_t Ctx) (t : Nat) (l : List Nat),
      substate_chain e.state_info f t = some l →
      ∃ ctx1, entry_loop f e t = (Status.returned,
        { e with ctx := ctx1, calls := e.calls ++ entry_calls e.state_info l,
                 cur_state := l.getLastD e.cur_state }, HSM_STATE_NONE) := by
  intro f
  induction f with
  | zero =>
    intro e t l h
    rcases link_chain_inv _ _ _ t l h with ⟨hc, hl⟩ | ⟨_, g, _, _, hg, _⟩
    · subst hl
      refine ⟨e.ctx, ?_⟩
      unfold entry_loop
      simp [hc, entry_calls]
    · omega
  | succ f ih =>
    intro e t l h
    rcases link_chain_inv _ _ _ t l h with ⟨hc, hl⟩ | ⟨hc, g, si, l1, hg, hsi, hr, hl⟩
    · subst hl
      refine ⟨e.ctx, ?_⟩
      unfold entry_loop
      simp [hc, entry_calls]
    · have hgf : g = f := by omega
      subst hgf
      subst hl
      unfold entry_loop
      simp only [hc, if_false, hsi]
      cases hact : si.hsm_state_entry with
      | none =>
        obtain ⟨ctx1, h1⟩ := ih { e with cur_state := t } si.initial_substate l1 hr
        refine ⟨ctx1, ?_⟩
        simp only [h1, entry_calls_cons, has_entry, hsi, hact]
        simp [getLast_getD_cons]
      | some act =>
        obtain ⟨ctx1, h1⟩ := ih { e with
          ctx := act e.ctx, calls := e.calls ++ [Call.entry t], cur_state := t }
          si.initial_substate l1 hr
        refine ⟨ctx1, ?_⟩
        simp only [h1, entry_calls_cons, has_entry, hsi, hact]
        simp [getLast_getD_cons]

/-- A transition to a state of a valid table, from an engine at rest on that
table, returns; it leaves the requested target in `next_state`, clears the
guard, and has called the exit actions up the parent chain of the old current
state followed by the entry actions down the initial-substate chain of the
target. -/
theorem hsm_state_transtion_spec {Ctx : Type} (tbl : List (hsm_state_info_t Ctx))
    (hv : ValidTable tbl) (e : hsm_engine_t Ctx) (he : e.state_info = tbl)
    (hrest : e.in_state_transition = false) (t fuel : Nat) (ht : t < tbl.length)
    (up down : List Nat) (hup : parent_chain tbl fuel e.cur_state = some up)
    (hdown : substate_chain tbl fuel t = some down) :
    ∃ ctx1, hsm_state_transtion fuel e t = (Status.returned,
      { e with ctx := ctx1, calls := e.calls ++ (exit_calls tbl up ++ entry_calls tbl down),
               cur_state := HSM_STATE_NONE, next_state := t,
               in_state_transition := false }) := by
  have hlt := valid_state_lt tbl hv t ht
  unfold HSM_MAX_STATES at hlt
  have hguard : ¬ (t = HSM_STATE_NONE ∨ t > HSM_MAX_STATES) := by
    unfold HSM_STATE_NONE HSM_MAX_STATES
    omega
  have hmod : t % 256 = t := Nat.mod_eq_of_lt (by omega)
  subst he
  obtain ⟨ctx1, h1⟩ := exit_loop_spec fuel
    { e with in_state_transition := true, next_state := t } e.cur_state up hup
  obtain ⟨ctx2, h2⟩ := entry_loop_spec fuel
    { e with in_state_transition := true, next_state := t, ctx := ctx1,
             calls := e.calls ++ exit_calls e.state_info up } t down hdown
  refine ⟨ctx2, ?_⟩
  unfold hsm_state_transtion
  simp only [hguard, if_false, hrest, hmod, h1, h2]
  simp [List.append_assoc]

/-! ## Concrete tables -/

theorem single_table_valid : ValidTable single_table := by
  refine ⟨?_, ?_, ?_, ?_⟩
  · intro i si h
    match i, h with
    | 0, h =>
      simp only [single_table, List.getElem?_cons_zero, Option.some.injEq] at h
      subst h
      exact ⟨rfl, by decide⟩
  · intro i si h
    match i, h with
    | 0, h =>
      simp only [single_table, List.getElem?_cons_zero, Option.some.injEq] at h
      subst h
      decide
  · intro i si h hi
    match i, h with
    | 0, h =>
      simp only [single_table, List.getElem?_cons_zero, Option.some.injEq] at h
      subst h
      exact absurd rfl hi
  · intro i hi
    match i, hi with
    | 0, _ => exact ⟨1, [0], rfl, by decide⟩

theorem demo_table_valid : ValidTable demo_table := by
  refine ⟨?_, ?_, ?_, ?_⟩
  · intro i si h
    match i, h with
    | 0, h | 1, h | 2, h | 3, h =>
      simp only [demo_table, List.getElem?_cons_zero, List.getElem?_cons_succ,
        Option.some.injEq] at h
      subst h
      exact ⟨rfl, by decide⟩
  · intro i si h
    match i, h with
    | 0, h | 1, h | 2, h | 3, h =>
      simp only [demo_table, List.getElem?_cons_zero, List.getElem?_cons_succ,
        Option.some.injEq] at h
      subst h
      decide
  · intro i si h hi
    match i, h with
    | 0, h =>
      simp only [demo_table, List.getElem?_cons_zero, Option.some.injEq] at h
      subst h
      exact ⟨_, rfl, rfl⟩
    | 1, h =>
      simp only [demo_table, List.getElem?_cons_zero, List.getElem?_cons_succ,
        Option.some.injEq] at h
      subst h
      exact ⟨_, rfl, rfl⟩
    | 2, h | 3, h =>
      simp only [demo_table, List.getElem?_cons_zero, List.getElem?_cons_succ,
        Option.some.injEq] at h
      subst h
      exact absurd rfl hi
  · intro i hi
    match i, hi with
    | 0, _ => exact ⟨4, [0], rfl, by decide⟩
    | 1, _ => exact ⟨4, [1, 0], rfl, by decide⟩
    | 2, _ => exact ⟨4, [2, 1, 0], rfl, by decide⟩
    | 3, _ => exact ⟨4, [3, 0], rfl, by decide⟩

/-! ## Construction -/

theorem loop_detect_revisit {Ctx : Type} (tbl : List (hsm_state_info_t Ctx)) (fuel : Nat)
    (state_visited : List Nat) (state v : Nat) (hs : state ≠ HSM_STATE_NONE)
    (hv : state_visited[state]? = some v) (hv0 : v ≠ 0) :
    loop_detect tbl (fuel + 1) state_visited state = Check.null := by
  rw [loop_detect]
  simp only [hs, if_false, hv]
  simp [hv0]

/-- The loop-detection walk, started on a fresh `state_visited`, never passes:
it does not advance `state`, so it stops on a table read or reports a loop in
its second iteration. -/
theorem loop_detect_fresh {Ctx : Type} (tbl : List (hsm_state_info_t Ctx)) (fuel state : Nat)
    (hs : state < HSM_MAX_STATES) :
    loop_detect tbl (fuel + 2) (List.replicate HSM_MAX_STATES 0) state ≠ Check.pass ∧
    ∀ si, tbl[state]? = some si → si.parent_state = HSM_STATE_NONE →
      loop_detect tbl (fuel + 2) (List.replicate HSM_MAX_STATES 0) state = Check.null := by
  have hne : state ≠ HSM_STATE_NONE := by
    unfold HSM_MAX_STATES at hs
    unfold HSM_STATE_NONE
    omega
  have hv : (List.replicate HSM_MAX_STATES 0)[state]? = some 0 := by
    rw [List.getElem?_replicate]
    simp [hs]
  have hset : ((List.replicate HSM_MAX_STATES 0).set state 1)[state]? = some 1 := by
    rw [List.getElem?_set_self]
    simpa using hs
  have hrec := loop_detect_revisit tbl fuel _ state 1 hne hset (by decide)
  rw [loop_detect]
  simp only [hne, if_false, hv]
  constructor
  · cases hsi : tbl[state]? with
    | none => simp
    | some si =>
      simp only [ne_eq, not_true_eq_false, if_false]
      by_cases hp : si.parent_state = HSM_STATE_NONE
      · simp [hp, hrec]
      · simp only [hp, not_false_eq_true, if_true]
        cases hsn : tbl[si.parent_state]? with
        | none => simp
        | some sn =>
          by_cases h0 : sn.initial_substate = 0
          · simp [h0]
          · simp [h0, hrec]
  · intro si hsi hp
    simp [hsi, hp, hrec]

/-- The validation of a root entry without substates ends with `NULL`. -/
theorem check_entry_root {Ctx : Type} (tbl : List (hsm_state_info_t Ctx)) (fuel i : Nat)
    (si : hsm_state_info_t Ctx) (hsi : tbl[i]? = some si) (hid : si.state = i)
    (hlt : i < HSM_MAX_STATES) (hsub : si.has_substates = 0)
    (hinit : si.initial_substate = HSM_STATE_NONE) (hpar : si.parent_state = HSM_STATE_NONE) :
    check_entry (fuel + 2) tbl i = Check.null := by
  have h := (loop_detect_fresh tbl fuel i hlt).2 si hsi hpar
  unfold check_entry
  simp only [hsi, hid, hsub, hinit]
  simp [Nat.not_le.mpr hlt, h]

theorem hsm_engine_create_first_null {Ctx : Type} [Inhabited Ctx]
    (fuel sizeof_mesg : Nat)
    (malloc_ok qbuf_ok : Bool) (ctx : Ctx) (init_state : Nat)
    (tbl : List (hsm_state_info_t Ctx)) (k max_queued_event event_data_len flags : Nat)
    (hsm_debug_print : Bool) (h : check_entry fuel tbl 0 = Check.null) :
    hsm_engine_create fuel sizeof_mesg malloc_ok qbuf_ok ctx init_state tbl (k + 1)
      max_queued_event event_data_len flags hsm_debug_print = (Status.returned, none) := by
  unfold hsm_engine_create validate_loop
  simp only [h]

/-- Past the validation (here: a table of no entries) `hsm_engine_create`
returns an engine with the requested current state, no last event and the
guard clear. -/
theorem hsm_engine_create_empty {Ctx : Type} [Inhabited Ctx]
    (fuel sizeof_mesg : Nat) (qbuf_ok : Bool)
    (ctx : Ctx) (init_state : Nat) (tbl : List (hsm_state_info_t Ctx))
    (max_queued_event event_data_len flags : Nat) (hsm_debug_print : Bool) :
    ∃ e, hsm_engine_create fuel sizeof_mesg true qbuf_ok ctx init_state tbl 0
        max_queued_event event_data_len flags hsm_debug_print = (Status.returned, some e) ∧
      hsm_get_curstate e = init_state ∧ hsm_get_lastevent e = HSM_EVENT_NONE ∧
      e.in_state_transition = false :=
  ⟨_, rfl, rfl, rfl, rfl⟩

/-- C1: the one-state table `single_table` satisfies the validity conditions,
yet `hsm_engine_create` (both allocations succeeding) returns `NULL` for it:
the loop-detection walk never advances `state`, so its second iteration finds
the state it has just marked and reports a loop. -/
theorem hsm_engine_create_null_on_valid_table :
    ValidTable single_table ∧
    hsm_engine_create 2 16 true true (0 : Nat) 0 single_table 1 4 8 0 true
      = (Status.returned, none) :=
  ⟨single_table_valid,
    hsm_engine_create_first_null 2 16 true true 0 0 single_table 0 4 8 0 true
      (check_entry_root single_table 0 0 _ rfl rfl (by decide) rfl rfl rfl)⟩

/-! ## Transition -/

/-- C2: on the valid table `demo_table` the initial-substate chain of state 0
ends in the leaf 2, but after `hsm_state_transtion` to 0 has returned,
`hsm_get_curstate` yields `HSM_STATE_NONE`: the assignment after the entry
loop stores the loop variable, which is `HSM_STATE_NONE` there. -/
theorem hsm_state_transtion_current_is_none :
    ValidTable demo_table ∧
    substate_chain demo_table 4 0 = some [0, 1, 2] ∧
    (engine_at demo_table 3).in_state_transition = false ∧
    (hsm_state_transtion 4 (engine_at demo_table 3) 0).1 = Status.returned ∧
    hsm_get_curstate (hsm_state_transtion 4 (engine_at demo_table 3) 0).2 = HSM_STATE_NONE := by
  obtain ⟨ctx1, h⟩ := hsm_state_transtion_spec demo_table demo_table_valid
    (engine_at demo_table 3) rfl rfl 0 4 (by decide) [3, 0] [0, 1, 2] rfl rfl
  refine ⟨demo_table_valid, rfl, rfl, ?_, ?_⟩
  · rw [h]
  · rw [h]
    rfl

theorem entry_not_mem_exit_calls {Ctx : Type} (tbl : List (hsm_state_info_t Ctx)) (a : Nat)
    (l : List Nat) : Call.entry a ∉ exit_calls tbl l := by
  unfold exit_calls
  simp

theorem entry_mem_entry_calls {Ctx : Type} (tbl : List (hsm_state_info_t Ctx)) (a : Nat)
    (l : List Nat) (h : Call.entry a ∈ entry_calls tbl l) : a ∈ l := by
  unfold entry_calls at h
  simp only [List.mem_map, List.mem_filter] at h
  obtain ⟨x, ⟨hx, _⟩, hxa⟩ := h
  cases hxa
  exact hx

/-- C3: for a valid table, an engine at rest on it whose current state `c` is
a state of the table (or none), and a target `t` of the table,
`hsm_state_transtion` returns, and the calls it makes are exactly the exit
actions present along `c, parent(c), ...` up to the root, in that order,
followed by the entry actions present along `t, initial_substate(t), ...` down
to the leaf, in that order; no entry action of a proper ancestor of `t` is
among them. -/
theorem hsm_state_transtion_call_order {Ctx : Type} (tbl : List (hsm_state_info_t Ctx))
    (hv : ValidTable tbl) (e : hsm_engine_t Ctx) (he : e.state_info = tbl)
    (hcur : e.cur_state < tbl.length ∨ e.cur_state = HSM_STATE_NONE)
    (hrest : e.in_state_transition = false) (t : Nat) (ht : t < tbl.length)
    (fuel : Nat) (hfuel : tbl.length ≤ fuel) :
    ∃ up down, parent_chain tbl tbl.length e.cur_state = some up ∧
      substate_chain tbl tbl.length t = some down ∧
      (hsm_state_transtion fuel e t).1 = Status.returned ∧
      (hsm_state_transtion fuel e t).2.calls
        = e.calls ++ (exit_calls tbl up ++ entry_calls tbl down) ∧
      ∀ anc, parent_chain tbl tbl.length t = some (t :: anc) →
        ∀ a ∈ anc, Call.entry a ∉ exit_calls tbl up ++ entry_calls tbl down := by
  obtain ⟨up, hup, _, _⟩ := parent_chain_total tbl hv e.cur_state hcur
  obtain ⟨down, hdown, hanc⟩ := substate_chain_total tbl hv t ht
  have hup1 := link_chain_mono _ tbl _ _ _ hup fuel hfuel
  have hdown1 := link_chain_mono _ tbl _ _ _ hdown fuel hfuel
  obtain ⟨ctx1, h1⟩ := hsm_state_transtion_spec tbl hv e he hrest t fuel ht up down hup1 hdown1
  refine ⟨up, down, hup, hdown, ?_, ?_, ?_⟩
  · rw [h1]
  · rw [h1]
  · intro anc h a ha hmem
    rcases List.mem_append.mp hmem with hm | hm
    · exact entry_not_mem_exit_calls tbl a up hm
    · exact hanc anc h a ha (entry_mem_entry_calls tbl a down hm)

/-- Instance of C3: on `demo_table`, from the leaf 2 to the target 1. -/
theorem hsm_state_transtion_call_order_witness :
    ∃ up down, parent_chain demo_table demo_table.length (engine_at demo_table 2).cur_state
        = some up ∧
      substate_chain demo_table demo_table.length 1 = some down ∧
      (hsm_state_transtion 4 (engine_at demo_table 2) 1).1 = Status.returned ∧
      (hsm_state_transtion 4 (engine_at demo_table 2) 1).2.calls
        = (engine_at demo_table 2).calls ++ (exit_calls demo_table up ++ entry_calls demo_table down) ∧
      ∀ anc, parent_chain demo_table demo_table.length 1 = some (1 :: anc) →
        ∀ a ∈ anc, Call.entry a ∉ exit_calls demo_table up ++ entry_calls demo_table down :=
  hsm_state_transtion_call_order demo_table demo_table_valid (engine_at demo_table 2) rfl
    (Or.inl (by decide)) rfl 1 (by decide) 4 (by decide)

/-- A target that is `HSM_STATE_NONE` or above `HSM_MAX_STATES` is rejected:
the only effect is the diagnostic. -/
theorem hsm_state_transtion_rejected {Ctx : Type} (fuel : Nat) (e : hsm_engine_t Ctx)
    (state : Nat) (h : state = HSM_STATE_NONE ∨ state > HSM_MAX_STATES) :
    hsm_state_transtion fuel e state
      = (Status.returned, HSM_DPRINT e (Diag.invalid_state state)) := by
  unfold hsm_state_transtion
  simp only [h, if_true]

theorem valid_length_le {Ctx : Type} (tbl : List (hsm_state_info_t Ctx)) (hv : ValidTable tbl) :
    tbl.length ≤ HSM_MAX_STATES := by
  by_contra h
  have := valid_state_lt tbl hv HSM_MAX_STATES (by omega)
  omega

/-- The target `HSM_MAX_STATES` passes the guard of `hsm_state_transtion`: the
exit phase runs, and the entry phase stops on the read of
`state_info[HSM_MAX_STATES]`, outside every valid table. -/
theorem hsm_state_transtion_max_states {Ctx : Type} (tbl : List (hsm_state_info_t Ctx))
    (hv : ValidTable tbl) (e : hsm_engine_t Ctx) (he : e.state_info = tbl)
    (hrest : e.in_state_transition = false) (fuel : Nat) (up : List Nat)
    (hup : parent_chain tbl (fuel + 1) e.cur_state = some up) :
    ∃ ctx1, hsm_state_transtion (fuel + 1) e HSM_MAX_STATES = (Status.out_of_bounds,
      { e with ctx := ctx1, calls := e.calls ++ exit_calls tbl up,
               next_state := HSM_MAX_STATES, in_state_transition := true }) := by
  have hlen := valid_length_le tbl hv
  subst he
  obtain ⟨ctx1, h1⟩ := exit_loop_spec (fuel + 1)
    { e with in_state_transition := true, next_state := HSM_MAX_STATES } e.cur_state up hup
  refine ⟨ctx1, ?_⟩
  have hnone : e.state_info[HSM_MAX_STATES]? = none := List.getElem?_eq_none hlen
  have hguard : ¬ (HSM_MAX_STATES = HSM_STATE_NONE ∨ HSM_MAX_STATES > HSM_MAX_STATES) := by
    decide
  have hmod : HSM_MAX_STATES % 256 = HSM_MAX_STATES := by decide
  have hne : HSM_MAX_STATES ≠ HSM_STATE_NONE := by decide
  unfold hsm_state_transtion
  simp only [hguard, if_false, hrest, hmod, h1]
  unfold entry_loop
  simp only [hne, if_false, hnone]
  simp

/-- C4: the target 200 exceeds the maximum state id 199 but passes the guard
`state > HSM_MAX_STATES`: on `demo_table` with current state 3 the exit actions
of 3 and 0 are called, `next_state` becomes 200 and the guard is set, and the
entry phase then reads `state_info[200]`, outside the table. -/
theorem hsm_state_transtion_accepts_200 :
    (hsm_state_transtion 4 (engine_at demo_table 3) 200).1 = Status.out_of_bounds ∧
    (hsm_state_transtion 4 (engine_at demo_table 3) 200).2.calls = [Call.exit 3, Call.exit 0] ∧
    (engine_at demo_table 3).next_state = 0 ∧
    (hsm_state_transtion 4 (engine_at demo_table 3) 200).2.next_state = 200 ∧
    (engine_at demo_table 3).in_state_transition = false ∧
    (hsm_state_transtion 4 (engine_at demo_table 3) 200).2.in_state_transition = true := by
  obtain ⟨ctx1, h⟩ := hsm_state_transtion_max_states demo_table demo_table_valid
    (engine_at demo_table 3) rfl rfl 3 [3, 0] rfl
  have h200 : HSM_MAX_STATES = 200 := rfl
  rw [h200] at h
  refine ⟨?_, ?_, rfl, ?_, rfl, ?_⟩
  · rw [h]
  · rw [h]
    rfl
  · rw [h]
  · rw [h]

/-! ## Dispatch -/

theorem dispatch_loop_handled {Ctx : Type} (event len : Nat) (event_data : List Nat)
    (tf f : Nat) (e : hsm_engine_t Ctx) (s : Nat) :
    dispatch_loop event len event_data tf f e true s = (Status.returned, e, true) := by
  unfold dispatch_loop
  simp

/-- The dispatch loop refines `bubble` along the parent chain of the state it
starts in, when no handler makes a transition. -/
theorem dispatch_loop_spec {Ctx : Type} (event len : Nat) (event_data : List Nat) (tf : Nat) :
    ∀ (f : Nat) (e : hsm_engine_t Ctx) (c : Nat) (l : List Nat),
      parent_chain e.state_info f c = some l →
      (∀ (s : Nat) (si : hsm_state_info_t Ctx), e.state_info[s]? = some si →
        ∀ cx ev ln d, (si.hsm_state_event cx ev ln d).transitions = []) →
      ∃ ctx1, dispatch_loop event len event_data tf f e false c = (Status.returned,
        { e with
          ctx := ctx1,
          calls := e.calls ++ event_calls event len event_data
            ((bubble e.state_info event len event_data e.ctx l).map Prod.fst),
          event_state := ((bubble e.state_info event len event_data e.ctx l).map
            Prod.fst).getLast?.getD e.event_state },
        (bubble e.state_info event len event_data e.ctx l).any (fun p => p.2)) := by
  intro f
  induction f with
  | zero =>
    intro e c l h _
    rcases link_chain_inv _ _ _ c l h with ⟨hc, hl⟩ | ⟨_, g, _, _, hg, _⟩
    · subst hl
      refine ⟨e.ctx, ?_⟩
      unfold dispatch_loop
      simp [hc, bubble, event_calls]
    · omega
  | succ f ih =>
    intro e c l h hpure
    rcases link_chain_inv _ _ _ c l h with ⟨hc, hl⟩ | ⟨hc, g, si, l1, hg, hsi, hr, hl⟩
    · subst hl
      refine ⟨e.ctx, ?_⟩
      unfold dispatch_loop
      simp [hc, bubble, event_calls]
    · have hgf : g = f := by omega
      subst hgf
      subst hl
      have htr := hpure c si hsi e.ctx event len event_data
      unfold dispatch_loop
      simp only [Bool.false_eq_true, hc, or_self, if_false, hsi, htr, run_transitions]
      by_cases hh : (si.hsm_state_event e.ctx event len event_data).handled = true
      · refine ⟨(si.hsm_state_event e.ctx event len event_data).ctx, ?_⟩
        rw [hh, dispatch_loop_handled]
        simp [bubble, hsi, hh, event_calls]
      · have hf : (si.hsm_state_event e.ctx event len event_data).handled = false := by
          simpa using hh
        obtain ⟨ctx1, h1⟩ := ih { e with
          event_state := c, ctx := (si.hsm_state_event e.ctx event len event_data).ctx,
          calls := e.calls ++ [Call.event c event len event_data] } si.parent_state l1 hr hpure
        refine ⟨ctx1, ?_⟩
        rw [hf, h1]
        simp [bubble, hsi, hf, event_calls, getLast_getD_cons]

theorem bubble_split {Ctx : Type} (tbl : List (hsm_state_info_t Ctx)) (event len : Nat)
    (event_data : List Nat) :
    ∀ (l : List Nat) (ctx : Ctx),
      ∃ rest, l = (bubble tbl event len event_data ctx l).map Prod.fst ++ rest := by
  intro l
  induction l with
  | nil => intro ctx; exact ⟨[], by simp [bubble]⟩
  | cons s l ih =>
    intro ctx
    cases hsi : tbl[s]? with
    | none => exact ⟨s :: l, by simp [bubble, hsi]⟩
    | some si =>
      by_cases hh : (si.hsm_state_event ctx event len event_data).handled = true
      · exact ⟨l, by simp [bubble, hsi, hh]⟩
      · have hf : (si.hsm_state_event ctx event len event_data).handled = false := by
          simpa using hh
        obtain ⟨rest, hrest⟩ := ih (si.hsm_state_event ctx event len event_data).ctx
        refine ⟨rest, ?_⟩
        simp only [bubble, hsi, hf, Bool.false_eq_true, if_false, List.map_cons,
          List.cons_append]
        rw [← hrest]

theorem bubble_dropLast {Ctx : Type} (tbl : List (hsm_state_info_t Ctx)) (event len : Nat)
    (event_data : List Nat) :
    ∀ (l : List Nat) (ctx : Ctx),
      ∀ p ∈ (bubble tbl event len event_data ctx l).dropLast, p.2 = false := by
  intro l
  induction l with
  | nil => intro ctx p hp; simp [bubble] at hp
  | cons s l ih =>
    intro ctx p hp
    cases hsi : tbl[s]? with
    | none => simp [bubble, hsi] at hp
    | some si =>
      by_cases hh : (si.hsm_state_event ctx event len event_data).handled = true
      · simp [bubble, hsi, hh] at hp
      · have hf : (si.hsm_state_event ctx event len event_data).handled = false := by
          simpa using hh
        simp only [bubble, hsi, hf, Bool.false_eq_true, if_false] at hp
        cases hb : bubble tbl event len event_data
            (si.hsm_state_event ctx event len event_data).ctx l with
        | nil => simp [hb] at hp
        | cons q b =>
          rw [hb, List.dropLast_cons₂] at hp
          rcases List.mem_cons.mp hp with rfl | hp
          · rfl
          · exact ih _ p (by rw [hb]; exact hp)

theorem bubble_full {Ctx : Type} (tbl : List (hsm_state_info_t Ctx)) (event len : Nat)
    (event_data : List Nat) :
    ∀ (l : List Nat) (ctx : Ctx), (∀ x ∈ l, x < tbl.length) →
      (∀ p ∈ bubble tbl event len event_data ctx l, p.2 = false) →
      (bubble tbl event len event_data ctx l).map Prod.fst = l := by
  intro l
  induction l with
  | nil => intro ctx _ _; simp [bubble]
  | cons s l ih =>
    intro ctx hb hp
    have hlt : s < tbl.length := hb s (List.mem_cons_self _ _)
    have hsi : tbl[s]? = some tbl[s] := List.getElem?_eq_getElem hlt
    have hh : (tbl[s].hsm_state_event ctx event len event_data).handled = false := by
      apply hp (s, (tbl[s].hsm_state_event ctx event len event_data).handled)
      simp [bubble, hsi]
    simp only [bubble, hsi, hh, Bool.false_eq_true, if_false, List.map_cons] at hp ⊢
    rw [ih _ (fun x hx => hb x (List.mem_cons_of_mem _ hx))
      (fun p hpm => hp p (List.mem_cons_of_mem _ hpm))]

/-- The internal dispatch routine on an engine whose handlers make no
transition: it returns, and the engine it leaves is the old one with the
event recorded, the handlers of `bubble` called, `event_state` at the last of
them, and the diagnostic added when no handler reported the event handled. -/
theorem hsm_dispatch_sync_internal_spec {Ctx : Type} (e : hsm_engine_t Ctx)
    (event len : Nat) (event_data : List Nat) (fuel : Nat) (up : List Nat)
    (hup : parent_chain e.state_info fuel e.cur_state = some up)
    (hpure : ∀ (s : Nat) (si : hsm_state_info_t Ctx), e.state_info[s]? = some si →
      ∀ cx ev ln d, (si.hsm_state_event cx ev ln d).transitions = []) :
    ∃ ctx1, hsm_dispatch_sync_internal fuel e event len event_data = (Status.returned,
      if (bubble e.state_info event len event_data e.ctx up).any (fun p => p.2) then
        { e with
          last_event := event % 256, ctx := ctx1,
          calls := e.calls ++ event_calls event len event_data
            ((bubble e.state_info event len event_data e.ctx up).map Prod.fst),
          event_state := ((bubble e.state_info event len event_data e.ctx up).map
            Prod.fst).getLast?.getD e.event_state }
      else
        HSM_DPRINT { e with
          last_event := event % 256, ctx := ctx1,
          calls := e.calls ++ event_calls event len event_data
            ((bubble e.state_info event len event_data e.ctx up).map Prod.fst),
          event_state := ((bubble e.state_info event len event_data e.ctx up).map
            Prod.fst).getLast?.getD e.event_state }
          (Diag.unhandled event e.cur_state)) := by
  obtain ⟨ctx1, h1⟩ := dispatch_loop_spec event len event_data fuel fuel
    { e with last_event := event % 256 } e.cur_state up hup hpure
  refine ⟨ctx1, ?_⟩
  unfold hsm_dispatch_sync_internal
  simp only [h1]
  cases hb : (bubble e.state_info event len event_data e.ctx up).any (fun p => p.2) <;> simp

theorem is_dprint_event_calls (event len : Nat) (event_data : List Nat) (l : List Nat) :
    (event_calls event len event_data l).filter is_dprint = [] := by
  unfold event_calls
  simp [List.filter_eq_nil_iff, is_dprint]

theorem nodup_of_append_left (l1 l2 l : List Nat) (h : l = l1 ++ l2) (hn : l.Nodup) :
    l1.Nodup := by
  subst h
  exact (List.nodup_append.mp hn).1

theorem HSM_DPRINT_calls {Ctx : Type} (e : hsm_engine_t Ctx) (d : Diag) :
    ∃ diag, (HSM_DPRINT e d).calls = e.calls ++ diag ∧ (∀ c ∈ diag, is_dprint c = true) ∧
      (HSM_DPRINT e d).event_state = e.event_state ∧
      (HSM_DPRINT e d).cur_state = e.cur_state := by
  unfold HSM_DPRINT
  cases e.hsm_debug_print
  · exact ⟨[], by simp⟩
  · exact ⟨[Call.dprint d], by simp [is_dprint]⟩

/-- C5: for a valid table, an engine on it whose current state is a state of
the table (or none) and whose handlers make no transition, and any event, the
internal dispatch routine returns, and with `up` the chain current state,
parent, grandparent, ... and `bubble` the bubbling of the event along `up`:
the handler calls are exactly those of `bubble`, in that order, possibly
followed by a diagnostic; the states called are an initial part of `up`, each
called once; every handler but the last called reported the event not handled
(so no handler above a handling state runs), and when none handled the event
the whole of `up` was called; `event_state` is the last state called and the
current state is unchanged.  In particular, when the handlers of the current
state and of its parent report not handled and the grandparent's reports
handled, exactly these three are called, in that order. -/
theorem hsm_dispatch_bubbles {Ctx : Type} (tbl : List (hsm_state_info_t Ctx))
    (hv : ValidTable tbl) (e : hsm_engine_t Ctx) (he : e.state_info = tbl)
    (hcur : e.cur_state < tbl.length ∨ e.cur_state = HSM_STATE_NONE)
    (hpure : ∀ (s : Nat) (si : hsm_state_info_t Ctx), tbl[s]? = some si →
      ∀ cx ev ln d, (si.hsm_state_event cx ev ln d).transitions = [])
    (event len : Nat) (event_data : List Nat) (fuel : Nat) (hfuel : tbl.length ≤ fuel) :
    ∃ up, parent_chain tbl tbl.length e.cur_state = some up ∧
      (hsm_dispatch_sync_internal fuel e event len event_data).1 = Status.returned ∧
      (∃ diag, (hsm_dispatch_sync_internal fuel e event len event_data).2.calls
          = e.calls ++ event_calls event len event_data
              ((bubble tbl event len event_data e.ctx up).map Prod.fst) ++ diag ∧
        ∀ c ∈ diag, is_dprint c = true) ∧
      (∃ rest, up = (bubble tbl event len event_data e.ctx up).map Prod.fst ++ rest) ∧
      ((bubble tbl event len event_data e.ctx up).map Prod.fst).Nodup ∧
      (∀ p ∈ (bubble tbl event len event_data e.ctx up).dropLast, p.2 = false) ∧
      ((∀ p ∈ bubble tbl event len event_data e.ctx up, p.2 = false) →
        (bubble tbl event len event_data e.ctx up).map Prod.fst = up) ∧
      (hsm_dispatch_sync_internal fuel e event len event_data).2.event_state
        = ((bubble tbl event len event_data e.ctx up).map Prod.fst).getLast?.getD
            e.event_state ∧
      (hsm_dispatch_sync_internal fuel e event len event_data).2.cur_state = e.cur_state ∧
      ∀ sl sm sa : hsm_state_info_t Ctx, tbl[e.cur_state]? = some sl →
        tbl[sl.parent_state]? = some sm → tbl[sm.parent_state]? = some sa →
        (sl.hsm_state_event e.ctx event len event_data).handled = false →
        (sm.hsm_state_event (sl.hsm_state_event e.ctx event len event_data).ctx
          event len event_data).handled = false →
        (sa.hsm_state_event (sm.hsm_state_event
          (sl.hsm_state_event e.ctx event len event_data).ctx event len event_data).ctx
          event len event_data).handled = true →
        (bubble tbl event len event_data e.ctx up).map Prod.fst
          = [e.cur_state, sl.parent_state, sm.parent_state] := by
  obtain ⟨up, hup, hnd, _⟩ := parent_chain_total tbl hv e.cur_state hcur
  have hup1 := link_chain_mono _ tbl _ _ _ hup fuel hfuel
  subst he
  obtain ⟨ctx1, h1⟩ := hsm_dispatch_sync_internal_spec e event len event_data fuel up hup1 hpure
  obtain ⟨rest, hrest⟩ := bubble_split e.state_info event len event_data up e.ctx
  obtain ⟨_, hb, _⟩ := link_chain_bounds _ _ _ _ _ hup
  refine ⟨up, hup, by rw [h1], ?_, ⟨rest, hrest⟩, nodup_of_append_left _ rest up hrest hnd,
    bubble_dropLast e.state_info event len event_data up e.ctx,
    bubble_full e.state_info event len event_data up e.ctx hb, ?_, ?_, ?_⟩
  · rw [h1]
    split
    · exact ⟨[], by simp⟩
    · obtain ⟨diag, hd, hall, _⟩ := HSM_DPRINT_calls { e with
        last_event := event % 256, ctx := ctx1,
        calls := e.calls ++ event_calls event len event_data
          ((bubble e.state_info event len event_data e.ctx up).map Prod.fst),
        event_state := ((bubble e.state_info event len event_data e.ctx up).map
          Prod.fst).getLast?.getD e.event_state } (Diag.unhandled event e.cur_state)
      exact ⟨diag, hd, hall⟩
  · rw [h1]
    split
    · rfl
    · obtain ⟨_, _, _, hes, _⟩ := HSM_DPRINT_calls { e with
        last_event := event % 256, ctx := ctx1,
        calls := e.calls ++ event_calls event len event_data
          ((bubble e.state_info event len event_data e.ctx up).map Prod.fst),
        event_state := ((bubble e.state_info event len event_data e.ctx up).map
          Prod.fst).getLast?.getD e.event_state } (Diag.unhandled event e.cur_state)
      exact hes
  · rw [h1]
    split
    · rfl
    · obtain ⟨_, _, _, _, hcs⟩ := HSM_DPRINT_calls { e with
        last_event := event % 256, ctx := ctx1,
        calls := e.calls ++ event_calls event len event_data
          ((bubble e.state_info event len event_data e.ctx up).map Prod.fst),
        event_state := ((bubble e.state_info event len event_data e.ctx up).map
          Prod.fst).getLast?.getD e.event_state } (Diag.unhandled event e.cur_state)
      exact hcs
  · intro sl sm sa hsl hsm hsa h1f h2f h3t
    have hc0 := valid_state_ne_none _ hv _ (lookup_lt _ _ _ hsl)
    have hc1 := valid_state_ne_none _ hv _ (lookup_lt _ _ _ hsm)
    have hc2 := valid_state_ne_none _ hv _ (lookup_lt _ _ _ hsa)
    rcases link_chain_inv _ _ _ _ _ hup with ⟨h0, _⟩ | ⟨_, g1, si1, l1, _, hsi1, hr1, hl1⟩
    · exact absurd h0 hc0
    · have e1 : si1 = sl := Option.some.inj (hsi1.symm.trans hsl)
      subst e1
      rcases link_chain_inv _ _ _ _ _ hr1 with ⟨h0, _⟩ | ⟨_, g2, si2, l2, _, hsi2, hr2, hl2⟩
      · exact absurd h0 hc1
      · have e2 : si2 = sm := Option.some.inj (hsi2.symm.trans hsm)
        subst e2
        rcases link_chain_inv _ _ _ _ _ hr2 with ⟨h0, _⟩ | ⟨_, g3, si3, l3, _, hsi3, _, hl3⟩
        · exact absurd h0 hc2
        · subst hl3
          subst hl2
          subst hl1
          simp [bubble, hsl, hsm, hsa, h1f, h2f, h3t]

theorem demo_table_pure : ∀ (s : Nat) (si : hsm_state_info_t Nat), demo_table[s]? = some si →
    ∀ cx ev ln d, (si.hsm_state_event cx ev ln d).transitions = [] := by
  intro s si h cx ev ln d
  match s, h with
  | 0, h | 1, h | 2, h | 3, h =>
    simp only [demo_table, List.getElem?_cons_zero, List.getElem?_cons_succ,
      Option.some.injEq] at h
    subst h
    rfl

/-- Instance of C5: on `demo_table` with current state 2, the event 7 is handled
by the root only; the handlers of 2, 1 and 0 are called and `event_state`
ends at 0. -/
theorem hsm_dispatch_bubbles_witness :
    ValidTable demo_table ∧
    (hsm_dispatch_sync_internal 4 (engine_at demo_table 2) 7 0 []).1 = Status.returned ∧
    (∃ diag, (hsm_dispatch_sync_internal 4 (engine_at demo_table 2) 7 0 []).2.calls
      = [Call.event 2 7 0 [], Call.event 1 7 0 [], Call.event 0 7 0 []] ++ diag) ∧
    (hsm_dispatch_sync_internal 4 (engine_at demo_table 2) 7 0 []).2.event_state = 0 := by
  obtain ⟨up, hup, hret, ⟨diag, hcalls, _⟩, _, _, _, _, hes, _, _⟩ :=
    hsm_dispatch_bubbles demo_table demo_table_valid (engine_at demo_table 2) rfl
      (Or.inl (by decide)) demo_table_pure 7 0 [] 4 (by decide)
  have hu : up = [2, 1, 0] := Option.some.inj (hup.symm.trans rfl)
  subst hu
  exact ⟨demo_table_valid, hret, ⟨diag, hcalls.trans rfl⟩, hes.trans rfl⟩

/-- The dispatch loop refines `bubble` along the parent chain of the state it
starts in, when the handlers that run make no transition. -/
theorem dispatch_loop_spec_run {Ctx : Type} (event len : Nat) (event_data : List Nat)
    (tf : Nat) :
    ∀ (f : Nat) (e : hsm_engine_t Ctx) (c : Nat) (l : List Nat),
      parent_chain e.state_info f c = some l →
      (∀ ts ∈ bubble_transitions e.state_info event len event_data e.ctx l, ts = []) →
      ∃ ctx1, dispatch_loop event len event_data tf f e false c = (Status.returned,
        { e with
          ctx := ctx1,
          calls := e.calls ++ event_calls event len event_data
            ((bubble e.state_info event len event_data e.ctx l).map Prod.fst),
          event_state := ((bubble e.state_info event len event_data e.ctx l).map
            Prod.fst).getLast?.getD e.event_state },
        (bubble e.state_info event len event_data e.ctx l).any (fun p => p.2)) := by
  intro f
  induction f with
  | zero =>
    intro e c l h _
    rcases link_chain_inv _ _ _ c l h with ⟨hc, hl⟩ | ⟨_, g, _, _, hg, _⟩
    · subst hl
      refine ⟨e.ctx, ?_⟩
      unfold dispatch_loop
      simp [hc, bubble, event_calls]
    · omega
  | succ f ih =>
    intro e c l h hq
    rcases link_chain_inv _ _ _ c l h with ⟨hc, hl⟩ | ⟨hc, g, si, l1, hg, hsi, hr, hl⟩
    · subst hl
      refine ⟨e.ctx, ?_⟩
      unfold dispatch_loop
      simp [hc, bubble, event_calls]
    · have hgf : g = f := by omega
      subst hgf
      subst hl
      have htr : (si.hsm_state_event e.ctx event len event_data).transitions = [] :=
        hq _ (by simp [bubble_transitions, hsi])
      unfold dispatch_loop
      simp only [Bool.false_eq_true, hc, or_self, if_false, hsi, htr, run_transitions]
      by_cases hh : (si.hsm_state_event e.ctx event len event_data).handled = true
      · refine ⟨(si.hsm_state_event e.ctx event len event_data).ctx, ?_⟩
        rw [hh, dispatch_loop_handled]
        simp [bubble, hsi, hh, event_calls]
      · have hf : (si.hsm_state_event e.ctx event len event_data).handled = false := by
          simpa using hh
        obtain ⟨ctx1, h1⟩ := ih { e with
          event_state := c, ctx := (si.hsm_state_event e.ctx event len event_data).ctx,
          calls := e.calls ++ [Call.event c event len event_data] } si.parent_state l1 hr
          (fun ts hts => hq ts (by
            simp only [bubble_transitions, hsi, hf, Bool.false_eq_true, if_false]
            exact List.mem_cons_of_mem _ hts))
        refine ⟨ctx1, ?_⟩
        rw [hf, h1]
        simp [bubble, hsi, hf, event_calls, getLast_getD_cons]

/-- The internal dispatch routine when the handlers that run make no
transition and none reports the event handled: it returns, and the engine it
leaves is the old one with the event recorded, the handlers along `up`
called, `event_state` at the last of them, and the diagnostic added. -/
theorem hsm_dispatch_sync_internal_unhandled_spec {Ctx : Type} (e : hsm_engine_t Ctx)
    (event len : Nat) (event_data : List Nat) (fuel : Nat) (up : List Nat)
    (hup : parent_chain e.state_info fuel e.cur_state = some up)
    (hquiet : ∀ ts ∈ bubble_transitions e.state_info event len event_data e.ctx up, ts = [])
    (hno : ∀ p ∈ bubble e.state_info event len event_data e.ctx up, p.2 = false) :
    ∃ ctx1, hsm_dispatch_sync_internal fuel e event len event_data = (Status.returned,
      HSM_DPRINT { e with
        last_event := event % 256, ctx := ctx1,
        calls := e.calls ++ event_calls event len event_data up,
        event_state := up.getLast?.getD e.event_state }
        (Diag.unhandled event e.cur_state)) := by
  obtain ⟨ctx1, h1⟩ := dispatch_loop_spec_run event len event_data fuel fuel
    { e with last_event := event % 256 } e.cur_state up hup hquiet
  obtain ⟨_, hb, _⟩ := link_chain_bounds _ _ _ _ _ hup
  have hfull := bubble_full e.state_info event len event_data up e.ctx hb hno
  have hany : (bubble e.state_info event len event_data e.ctx up).any (fun p => p.2) = false := by
    rw [List.any_eq_false]
    intro p hp
    simp [hno p hp]
  refine ⟨ctx1, ?_⟩
  unfold hsm_dispatch_sync_internal
  simp only [h1, hany, hfull]
  simp

/-- C6, amended: for a valid table, an engine on it with a debug hook
installed, and an event such that, along the chain `up` from the current state
to the root, no handler reports the event handled and no handler makes a
transition while it handles the event: the internal dispatch routine returns,
leaves the current state unchanged, and its calls are the handlers along `up`
followed by exactly one diagnostic, the unhandled-event one. -/
theorem hsm_dispatch_unhandled {Ctx : Type} (tbl : List (hsm_state_info_t Ctx))
    (_hv : ValidTable tbl) (e : hsm_engine_t Ctx) (he : e.state_info = tbl)
    (hhook : e.hsm_debug_print = true)
    (event len : Nat) (event_data : List Nat) (fuel : Nat) (hfuel : tbl.length ≤ fuel)
    (up : List Nat) (hup : parent_chain tbl tbl.length e.cur_state = some up)
    (hno : ∀ p ∈ bubble tbl event len event_data e.ctx up, p.2 = false)
    (hquiet : ∀ ts ∈ bubble_transitions tbl event len event_data e.ctx up, ts = []) :
    (hsm_dispatch_sync_internal fuel e event len event_data).1 = Status.returned ∧
    hsm_get_curstate (hsm_dispatch_sync_internal fuel e event len event_data).2
      = hsm_get_curstate e ∧
    (hsm_dispatch_sync_internal fuel e event len event_data).2.calls
      = e.calls ++ (event_calls event len event_data up
          ++ [Call.dprint (Diag.unhandled event e.cur_state)]) ∧
    (event_calls event len event_data up
      ++ [Call.dprint (Diag.unhandled event e.cur_state)]).filter is_dprint
      = [Call.dprint (Diag.unhandled event e.cur_state)] := by
  have hup1 := link_chain_mono _ tbl _ _ _ hup fuel hfuel
  subst he
  obtain ⟨ctx1, h1⟩ := hsm_dispatch_sync_internal_unhandled_spec e event len event_data fuel up
    hup1 hquiet hno
  rw [h1]
  refine ⟨rfl, ?_, ?_, ?_⟩
  · simp [hsm_get_curstate, HSM_DPRINT, hhook]
  · simp [HSM_DPRINT, hhook]
  · rw [List.filter_append, is_dprint_event_calls]
    rfl

/-- Instance of C6, amended: on `demo_table` with current state 2, no handler
handles the event 8 and none makes a transition. -/
theorem hsm_dispatch_unhandled_witness :
    (hsm_dispatch_sync_internal 4 (engine_at demo_table 2) 8 0 []).1 = Status.returned ∧
    hsm_get_curstate (hsm_dispatch_sync_internal 4 (engine_at demo_table 2) 8 0 []).2 = 2 ∧
    (hsm_dispatch_sync_internal 4 (engine_at demo_table 2) 8 0 []).2.calls
      = [Call.event 2 8 0 [], Call.event 1 8 0 [], Call.event 0 8 0 [],
         Call.dprint (Diag.unhandled 8 2)] :=
  have h := hsm_dispatch_unhandled demo_table demo_table_valid (engine_at demo_table 2) rfl
    rfl 8 0 [] 4 (by decide) [2, 1, 0] rfl (by decide) (by decide)
  ⟨h.1, h.2.1, h.2.2.1⟩

/-! ## Message queue -/

/-- C7: on the fresh asynchronous queue of capacity 1 the first send succeeds,
and so does the second, which the claim has fail with queue-full: the slot
taken with `STAILQ_FIRST` is never removed from the free list.  The second
send reuses slot 0, so the pending message (1, 1, [10]) is overwritten and the
pending list holds the slot twice. -/
theorem mesg_queue_send_never_full :
    queue_cap1.is_synchronous = false ∧ queue_cap1.free_mesg = [0] ∧
    (mesg_queue_send record queue_cap1 [] 1 1 [10]).1 = 0 ∧
    queue_cap1_sent.mesg_head.map queue_cap1_sent.qbuf = [⟨1, 1, [10]⟩] ∧
    (mesg_queue_send record queue_cap1_sent [] 2 1 [20]).1 = 0 ∧
    (mesg_queue_send record queue_cap1_sent [] 2 1 [20]).2.1.mesg_head.map
      (mesg_queue_send record queue_cap1_sent [] 2 1 [20]).2.1.qbuf
      = [⟨2, 1, [20]⟩, ⟨2, 1, [20]⟩] := by
  refine ⟨rfl, rfl, rfl, ?_, rfl, ?_⟩ <;> decide

/-- C8: after one send on the fresh asynchronous queue of capacity 1, slot 0 is
both in the free list and in the pending list. -/
theorem mesg_queue_send_slot_in_both :
    queue_cap1.free_mesg = [0] ∧ queue_cap1.mesg_head = [] ∧
    (0 ∈ queue_cap1_sent.free_mesg ∧ 0 ∈ queue_cap1_sent.mesg_head) := by
  refine ⟨rfl, rfl, ?_, ?_⟩ <;> decide

theorem mesg_queue_drain_loop_spec {W : Type} (msg_handler : mesg_handler_t W) :
    ∀ (fuel : Nat) (queue : mesg_queue_t) (ctx : W), queue.mesg_head.length ≤ fuel →
      ∃ n, mesg_queue_drain_loop msg_handler fuel queue ctx = (Status.returned,
        { queue with mesg_head := [], free_mesg := queue.free_mesg ++ queue.mesg_head,
                     num_mesg := n },
        (queue.mesg_head.map queue.qbuf).foldl (fun c m => msg_handler c m.type m.len m.data)
          ctx) := by
  intro fuel
  induction fuel with
  | zero =>
    intro queue ctx h
    have hnil : queue.mesg_head = [] := List.length_eq_zero.mp (Nat.le_zero.mp h)
    refine ⟨queue.num_mesg, ?_⟩
    unfold mesg_queue_drain_loop
    obtain ⟨mh, fm, nm, ml, qb, ts, sy⟩ := queue
    simp only at hnil
    subst hnil
    simp [STAILQ_FIRST]
  | succ fuel ih =>
    intro queue ctx h
    cases hq : queue.mesg_head with
    | nil =>
      refine ⟨queue.num_mesg, ?_⟩
      unfold mesg_queue_drain_loop
      obtain ⟨mh, fm, nm, ml, qb, ts, sy⟩ := queue
      simp only at hq
      subst hq
      simp [STAILQ_FIRST]
    | cons mesg rest =>
      rw [hq] at h
      obtain ⟨n, hn⟩ := ih { queue with
        mesg_head := rest, num_mesg := (queue.num_mesg + 2 ^ 32 - 1) % 2 ^ 32,
        free_mesg := queue.free_mesg ++ [mesg] }
        (msg_handler ctx (queue.qbuf mesg).type (queue.qbuf mesg).len (queue.qbuf mesg).data)
        (by simpa using h)
      refine ⟨n, ?_⟩
      unfold mesg_queue_drain_loop
      simp only [STAILQ_FIRST, hq, List.head?_cons, STAILQ_REMOVE_HEAD, List.tail_cons,
        STAILQ_INSERT_TAIL]
      rw [hn]
      simp

theorem foldl_record (l acc : List mesg_t) :
    l.foldl (fun c m => record c m.type m.len m.data) acc = acc ++ l := by
  induction l generalizing acc with
  | nil => simp
  | cons m l ih =>
    rw [List.foldl_cons, ih]
    simp [record]

/-- A drain with enough fuel returns, has applied the handler to the pending
messages in order, has emptied the pending list and has appended the drained
slots to the free list. -/
theorem mesg_queue_drain_spec {W : Type} (msg_handler : mesg_handler_t W)
    (queue : mesg_queue_t) (ctx : W) (fuel : Nat) (hfuel : queue.mesg_head.length ≤ fuel) :
    (mesg_queue_drain fuel msg_handler queue ctx).1 = Status.returned ∧
    (mesg_queue_drain fuel msg_handler queue ctx).2.2
      = (queue.mesg_head.map queue.qbuf).foldl
          (fun c m => msg_handler c m.type m.len m.data) ctx ∧
    (mesg_queue_drain fuel msg_handler queue ctx).2.1.mesg_head = [] ∧
    (mesg_queue_drain fuel msg_handler queue ctx).2.1.free_mesg
      = queue.free_mesg ++ queue.mesg_head := by
  obtain ⟨n, hn⟩ := mesg_queue_drain_loop_spec msg_handler fuel queue ctx hfuel
  unfold mesg_queue_drain
  rw [hn]
  exact ⟨rfl, rfl, rfl, rfl⟩

/-- C9: for a queue whose pending list holds the slots of the messages
`m1, ..., mk`, `mesg_queue_drain` returns; the handler has been applied to
`m1, ..., mk` in that order, each call receiving the type, length and payload
of its message (for the recording handler: the record is exactly
`m1, ..., mk`); afterwards the pending list is empty and the drained slots
have been appended to the free list. -/
theorem mesg_queue_drain_delivers {W : Type} (msg_handler : mesg_handler_t W)
    (queue : mesg_queue_t) (ctx : W) (fuel : Nat) (hfuel : queue.mesg_head.length ≤ fuel) :
    (mesg_queue_drain fuel msg_handler queue ctx).1 = Status.returned ∧
    (mesg_queue_drain fuel msg_handler queue ctx).2.2
      = (queue.mesg_head.map queue.qbuf).foldl
          (fun c m => msg_handler c m.type m.len m.data) ctx ∧
    (mesg_queue_drain fuel record queue []).2.2 = queue.mesg_head.map queue.qbuf ∧
    (mesg_queue_drain fuel msg_handler queue ctx).2.1.mesg_head = [] ∧
    (mesg_queue_drain fuel msg_handler queue ctx).2.1.free_mesg
      = queue.free_mesg ++ queue.mesg_head ∧
    ∀ s ∈ queue.mesg_head, s ∈ (mesg_queue_drain fuel msg_handler queue ctx).2.1.free_mesg := by
  obtain ⟨h1, h2, h3, h4⟩ := mesg_queue_drain_spec msg_handler queue ctx fuel hfuel
  obtain ⟨_, r2, _, _⟩ := mesg_queue_drain_spec record queue [] fuel hfuel
  refine ⟨h1, h2, ?_, h3, h4, ?_⟩
  · rw [r2, foldl_record]
    rfl
  · intro s hs
    rw [h4]
    exact List.mem_append_right _ hs

/-- Instance of C9: draining the queue `queue_cap2_sent`, whose pending list has
two entries. -/
theorem mesg_queue_drain_delivers_witness :
    queue_cap2_sent.mesg_head.length = 2 ∧
    (mesg_queue_drain 2 record queue_cap2_sent []).1 = Status.returned ∧
    (mesg_queue_drain 2 record queue_cap2_sent []).2.2
      = queue_cap2_sent.mesg_head.map queue_cap2_sent.qbuf ∧
    (mesg_queue_drain 2 record queue_cap2_sent []).2.1.mesg_head = [] :=
  have h := mesg_queue_drain_delivers record queue_cap2_sent [] 2 (by decide)
  ⟨by decide, h.1, h.2.2.1, h.2.2.2.1⟩

/-- C10: on the fresh asynchronous queue of capacity 2, the messages
(1, 1, [10]) and (2, 1, [20]) are sent, both with success; the drain that
follows delivers (2, 1, [20]) twice and never (1, 1, [10]): both sends wrote
slot 0, which was not removed from the free list. -/
theorem mesg_queue_fifo_overwritten :
    queue_cap2.is_synchronous = false ∧ queue_cap2.free_mesg.length = 2 ∧
    queue_cap2.mesg_len = 1 ∧
    (mesg_queue_send record queue_cap2 [] 1 1 [10]).1 = 0 ∧
    (mesg_queue_send record (mesg_queue_send record queue_cap2 [] 1 1 [10]).2.1 [] 2 1 [20]).1
      = 0 ∧
    (mesg_queue_drain 2 record queue_cap2_sent []).1 = Status.returned ∧
    (mesg_queue_drain 2 record queue_cap2_sent []).2.2 = [⟨2, 1, [20]⟩, ⟨2, 1, [20]⟩] := by
  have h := mesg_queue_drain_spec record queue_cap2_sent [] 2 (by decide)
  refine ⟨rfl, rfl, rfl, rfl, rfl, h.1, ?_⟩
  rw [h.2.1, foldl_record]
  decide

/-- C11: on a synchronous queue `mesg_queue_send` returns 0, leaves the queue as
it was (pending list, free list and `num_mesg` included), and has applied the
registered handler once to the context with the type, length and data of the
message: the recording handler holds exactly that one message. -/
theorem mesg_queue_send_sync {W : Type} (qhandler : mesg_handler_t W) (queue : mesg_queue_t)
    (ctx : W) (type len : Nat) (mesg_data : List Nat) (hs : queue.is_synchronous = true) :
    mesg_queue_send qhandler queue ctx type len mesg_data
      = (0, queue, qhandler ctx type len mesg_data) ∧
    (mesg_queue_send record queue [] type len mesg_data).2.2 = [⟨type, len, mesg_data⟩] ∧
    (mesg_queue_send qhandler queue ctx type len mesg_data).2.1.mesg_head = queue.mesg_head ∧
    (mesg_queue_send qhandler queue ctx type len mesg_data).2.1.free_mesg = queue.free_mesg ∧
    (mesg_queue_send qhandler queue ctx type len mesg_data).2.1.num_mesg = queue.num_mesg := by
  have h : ∀ (V : Type) (hd : mesg_handler_t V) (c : V),
      mesg_queue_send hd queue c type len mesg_data = (0, queue, hd c type len mesg_data) := by
    intro V hd c
    unfold mesg_queue_send
    simp [hs]
  rw [h, h]
  exact ⟨rfl, rfl, rfl, rfl, rfl⟩

/-- Instance of C11: the message (5, 1, [9]) on the fresh synchronous queue. -/
theorem mesg_queue_send_sync_witness :
    queue_sync.is_synchronous = true ∧
    mesg_queue_send record queue_sync [] 5 1 [9] = (0, queue_sync, [⟨5, 1, [9]⟩]) :=
  ⟨rfl, (mesg_queue_send_sync record queue_sync [] 5 1 [9] rfl).1⟩

/-- C12: on an asynchronous queue `mesg_queue_send` returns -1 exactly when the
free list is empty at the call, and such a call returns the queue (pending
list, free list, `num_mesg` and the count of armed timers) and the handler
context as they were. -/
theorem mesg_queue_send_full_iff {W : Type} (qhandler : mesg_handler_t W)
    (queue : mesg_queue_t) (ctx : W) (type len : Nat) (mesg_data : List Nat)
    (ha : queue.is_synchronous = false) :
    ((mesg_queue_send qhandler queue ctx type len mesg_data).1 = -1 ↔ queue.free_mesg = []) ∧
    (queue.free_mesg = [] →
      mesg_queue_send qhandler queue ctx type len mesg_data = (-1, queue, ctx)) := by
  unfold mesg_queue_send
  cases hf : queue.free_mesg with
  | nil => simp [ha, STAILQ_FIRST, hf]
  | cons m rest => simp [ha, STAILQ_FIRST, hf]

/-- Instance of C12: a send on the fresh asynchronous queue of capacity 0. -/
theorem mesg_queue_send_full_iff_witness :
    mesg_queue_send record
      (mesg_queue_init 16 true mesg_queue_zero 4 0
        mesgq_delivery_type_t.MESG_DELIVERY_ASYNC).2 [] 5 1 [9]
      = (-1, (mesg_queue_init 16 true mesg_queue_zero 4 0
          mesgq_delivery_type_t.MESG_DELIVERY_ASYNC).2, []) :=
  (mesg_queue_send_full_iff record
    (mesg_queue_init 16 true mesg_queue_zero 4 0
      mesgq_delivery_type_t.MESG_DELIVERY_ASYNC).2 [] 5 1 [9] rfl).2 rfl

/-! ## Construction: rejected tables -/

theorem mesg_queue_init_loop_spec (sizeof_mesg : Nat) :
    ∀ (k mesg : Nat) (free_mesg : stailq),
      mesg_queue_init_loop sizeof_mesg k mesg free_mesg
        = free_mesg ++ (List.range k).map (fun i => mesg + i * sizeof_mesg) := by
  intro k
  induction k with
  | zero => intro mesg free_mesg; simp [mesg_queue_init_loop]
  | succ k ih =>
    intro mesg free_mesg
    rw [mesg_queue_init_loop, ih, STAILQ_INSERT_TAIL, List.range_succ_eq_map]
    simp only [List.map_cons, List.map_map, List.append_assoc, List.singleton_append,
      Nat.zero_mul, Nat.add_zero]
    congr 2
    apply List.map_congr_left
    intro i _
    simp only [Function.comp, Nat.succ_eq_add_one]
    ring

/-- The free list that `mesg_queue_init` builds: slot `i` is at byte offset
`i * sizeof(mesg_t)`, whatever the payload size. -/
theorem mesg_queue_init_free (sizeof_mesg mesg_len max_queued : Nat) (queue : mesg_queue_t)
    (type : mesgq_delivery_type_t) :
    (mesg_queue_init sizeof_mesg true queue mesg_len max_queued type).2.free_mesg
      = (List.range max_queued).map (fun i => i * sizeof_mesg) := by
  unfold mesg_queue_init
  simp only [Bool.not_true, Bool.false_eq_true, if_false, STAILQ_INIT]
  split <;> simp [mesg_queue_init_loop_spec]

/-- C18: with `sizeof(mesg_t) = 16`, payload size 4 and capacity 2, the free
list holds the slots at byte offsets 0 and 16.  The claim puts slot 1 at
offset 1 * (16 + 4) = 20; at offset 16 its header starts inside the payload
bytes 16..19 of slot 0. -/
theorem mesg_queue_init_slots_overlap :
    (mesg_queue_init 16 true mesg_queue_zero 4 2
      mesgq_delivery_type_t.MESG_DELIVERY_ASYNC).2.free_mesg = [0, 16] ∧
    (16 : Nat) ≠ 1 * (16 + 4) ∧ (16 : Nat) < 0 + (16 + 4) := by
  refine ⟨?_, by decide, by decide⟩
  rw [mesg_queue_init_free]
  decide

/-! ## The last event -/

theorem HSM_DPRINT_last_event {Ctx : Type} (e : hsm_engine_t Ctx) (d : Diag) :
    (HSM_DPRINT e d).last_event = e.last_event := by
  unfold HSM_DPRINT
  split <;> rfl

theorem exit_loop_last_event {Ctx : Type} :
    ∀ (f : Nat) (e : hsm_engine_t Ctx) (c : Nat),
      (exit_loop f e c).2.last_event = e.last_event := by
  intro f
  induction f with
  | zero =>
    intro e c
    unfold exit_loop
    split <;> rfl
  | succ f ih =>
    intro e c
    unfold exit_loop
    split
    · rfl
    · simp only
      cases hsi : e.state_info[c]? with
      | none => rfl
      | some si =>
        simp only
        cases hact : si.hsm_state_exit with
        | none => exact ih _ _
        | some act => exact (ih _ _).trans rfl

theorem entry_loop_last_event {Ctx : Type} :
    ∀ (f : Nat) (e : hsm_engine_t Ctx) (c : Nat),
      (entry_loop f e c).2.1.last_event = e.last_event := by
  intro f
  induction f with
  | zero =>
    intro e c
    unfold entry_loop
    split <;> rfl
  | succ f ih =>
    intro e c
    unfold entry_loop
    split
    · rfl
    · simp only
      cases hsi : e.state_info[c]? with
      | none => rfl
      | some si =>
        simp only
        cases hact : si.hsm_state_entry with
        | none => exact (ih _ _).trans rfl
        | some act => exact (ih _ _).trans rfl

theorem hsm_state_transtion_last_event {Ctx : Type} (f : Nat) (e : hsm_engine_t Ctx)
    (t : Nat) : (hsm_state_transtion f e t).2.last_event = e.last_event := by
  have h1 := exit_loop_last_event f
    { e with in_state_transition := true, next_state := t % 256 } e.cur_state
  unfold hsm_state_transtion
  split
  · exact HSM_DPRINT_last_event e _
  · split
    · rfl
    · simp only
      generalize exit_loop f
        { e with in_state_transition := true, next_state := t % 256 } e.cur_state = x at h1 ⊢
      obtain ⟨st, e1⟩ := x
      simp only at h1
      have h2 := entry_loop_last_event f e1 (t % 256)
      cases st with
      | returned =>
        simp only
        generalize entry_loop f e1 (t % 256) = y at h2 ⊢
        obtain ⟨st2, e2, c2⟩ := y
        simp only at h2
        cases st2 <;> exact h2.trans h1
      | assert_failed => exact h1
      | out_of_bounds => exact h1
      | out_of_fuel => exact h1

theorem run_transitions_last_event {Ctx : Type} (f : Nat) :
    ∀ (ts : List Nat) (e : hsm_engine_t Ctx),
      (run_transitions f e ts).2.last_event = e.last_event := by
  intro ts
  induction ts with
  | nil => intro e; rfl
  | cons t ts ih =>
    intro e
    have h1 := hsm_state_transtion_last_event f e t
    unfold run_transitions
    generalize hsm_state_transtion f e t = x at h1 ⊢
    obtain ⟨st, e1⟩ := x
    simp only at h1
    cases st with
    | returned => exact (ih e1).trans h1
    | assert_failed => exact h1
    | out_of_bounds => exact h1
    | out_of_fuel => exact h1

theorem dispatch_loop_last_event {Ctx : Type} (event len : Nat) (event_data : List Nat)
    (tf : Nat) :
    ∀ (f : Nat) (e : hsm_engine_t Ctx) (h : Bool) (c : Nat),
      (dispatch_loop event len event_data tf f e h c).2.1.last_event = e.last_event := by
  intro f
  induction f with
  | zero =>
    intro e h c
    unfold dispatch_loop
    split <;> rfl
  | succ f ih =>
    intro e h c
    unfold dispatch_loop
    split
    · rfl
    · simp only
      cases hsi : e.state_info[c]? with
      | none => rfl
      | some si =>
        simp only
        have h1 := run_transitions_last_event tf
          (si.hsm_state_event e.ctx event len event_data).transitions
          { e with
            event_state := c, ctx := (si.hsm_state_event e.ctx event len event_data).ctx,
            calls := e.calls ++ [Call.event c event len event_data] }
        generalize run_transitions tf
          { e with
            event_state := c, ctx := (si.hsm_state_event e.ctx event len event_data).ctx,
            calls := e.calls ++ [Call.event c event len event_data] }
          (si.hsm_state_event e.ctx event len event_data).transitions = x at h1 ⊢
        obtain ⟨st, e1⟩ := x
        simp only at h1
        cases st with
        | returned =>
          simp only
          cases hs2 : e1.state_info[c]? with
          | none => exact h1
          | some s2 => exact (ih _ _ _).trans h1
        | assert_failed => exact h1
        | out_of_bounds => exact h1
        | out_of_fuel => exact h1

/-- Whatever the run, the internal dispatch routine leaves the event modulo 256
in `last_event`. -/
theorem hsm_dispatch_sync_internal_last_event {Ctx : Type} (fuel : Nat)
    (e : hsm_engine_t Ctx) (event len : Nat) (event_data : List Nat) :
    (hsm_dispatch_sync_internal fuel e event len event_data).2.last_event = event % 256 := by
  have h1 := dispatch_loop_last_event event len event_data fuel fuel
    { e with last_event := event % 256 } false e.cur_state
  unfold hsm_dispatch_sync_internal
  simp only
  generalize dispatch_loop event len event_data fuel fuel
    { e with last_event := event % 256 } false e.cur_state = x at h1 ⊢
  obtain ⟨st, e1, hd⟩ := x
  simp only at h1
  cases st with
  | returned =>
    simp only
    split
    · exact (HSM_DPRINT_last_event e1 _).trans h1
    · exact h1
  | assert_failed => exact h1
  | out_of_bounds => exact h1
  | out_of_fuel => exact h1

/-- Counterexample to C17 as stated: after the internal dispatch routine has run
for the 16-bit event 256 (on `demo_table`, current state 2),
`hsm_get_lastevent` returns 0. -/
theorem hsm_get_lastevent_truncated :
    (hsm_dispatch_sync_internal 4 (engine_at demo_table 2) 256 0 []).1 = Status.returned ∧
    hsm_get_lastevent (hsm_dispatch_sync_internal 4 (engine_at demo_table 2) 256 0 []).2 = 0 ∧
    hsm_get_lastevent (hsm_dispatch_sync_internal 4 (engine_at demo_table 2) 256 0 []).2
      ≠ 256 := by
  obtain ⟨ctx1, h⟩ := hsm_dispatch_sync_internal_spec (engine_at demo_table 2) 256 0 [] 4
    [2, 1, 0] rfl demo_table_pure
  have hl := hsm_dispatch_sync_internal_last_event 4 (engine_at demo_table 2) 256 0 []
  refine ⟨by rw [h], ?_, ?_⟩
  · exact hl
  · unfold hsm_get_lastevent
    rw [hl]
    decide

/-- C17, amended: after the internal dispatch routine has run for an event, the
8-bit `last_event` read by `hsm_get_lastevent` is the event id modulo 256, so
it is the event id itself for every id below 256. -/
theorem hsm_get_lastevent_mod {Ctx : Type} (fuel : Nat) (e : hsm_engine_t Ctx)
    (event len : Nat) (event_data : List Nat) :
    hsm_get_lastevent (hsm_dispatch_sync_internal fuel e event len event_data).2
      = event % 256 ∧
    (event < 256 →
      hsm_get_lastevent (hsm_dispatch_sync_internal fuel e event len event_data).2 = event) := by
  have hl := hsm_dispatch_sync_internal_last_event fuel e event len event_data
  refine ⟨hl, fun hlt => ?_⟩
  unfold hsm_get_lastevent
  rw [hl]
  exact Nat.mod_eq_of_lt hlt

/-- Instance of C17, amended: the event 7 on `demo_table` with current state 2. -/
theorem hsm_get_lastevent_mod_witness :
    hsm_get_lastevent (hsm_dispatch_sync_internal 4 (engine_at demo_table 2) 7 0 []).2 = 7 :=
  (hsm_get_lastevent_mod 4 (engine_at demo_table 2) 7 0 []).2 (by decide)

/-! ## The message counter -/

/-- One successful asynchronous send: the free list and the mode stay, the
pending list grows by one entry and `num_mesg` is incremented modulo 2^32. -/
theorem mesg_queue_send_async_step {W : Type} (qhandler : mesg_handler_t W)
    (queue : mesg_queue_t) (ctx : W) (type len : Nat) (mesg_data : List Nat) (m : Nat)
    (rest : List Nat) (ha : queue.is_synchronous = false) (hf : queue.free_mesg = m :: rest) :
    (mesg_queue_send qhandler queue ctx type len mesg_data).1 = 0 ∧
    (mesg_queue_send qhandler queue ctx type len mesg_data).2.1.is_synchronous = false ∧
    (mesg_queue_send qhandler queue ctx type len mesg_data).2.1.free_mesg = m :: rest ∧
    (mesg_queue_send qhandler queue ctx type len mesg_data).2.1.mesg_head
      = queue.mesg_head ++ [m] ∧
    (mesg_queue_send qhandler queue ctx type len mesg_data).2.1.num_mesg
      = (queue.num_mesg + 1) % 2 ^ 32 := by
  unfold mesg_queue_send
  simp only [ha, Bool.false_eq_true, if_false, STAILQ_FIRST, hf, List.head?_cons,
    STAILQ_INSERT_TAIL]
  split <;> simp [ha, hf]

theorem send_times_spec (m : Nat) (rest : List Nat) :
    ∀ (k : Nat) (queue : mesg_queue_t), queue.is_synchronous = false →
      queue.free_mesg = m :: rest → queue.num_mesg < 2 ^ 32 →
      (send_times k queue).mesg_head.length = queue.mesg_head.length + k ∧
      (send_times k queue).num_mesg = (queue.num_mesg + k) % 2 ^ 32 := by
  intro k
  induction k with
  | zero =>
    intro queue _ _ hlt
    exact ⟨rfl, (Nat.mod_eq_of_lt hlt).symm⟩
  | succ k ih =>
    intro queue ha hf _
    obtain ⟨_, h2, h3, h4, h5⟩ := mesg_queue_send_async_step record queue [] 1 0 [] m rest ha hf
    obtain ⟨i1, i2⟩ := ih (mesg_queue_send record queue [] 1 0 []).2.1 h2 h3
      (by rw [h5]; exact Nat.mod_lt _ (by norm_num))
    rw [send_times, i1, i2, h4, h5]
    constructor
    · simp only [List.length_append, List.length_singleton]
      omega
    · rw [Nat.mod_add_mod]
      congr 1
      omega

/-- C20: after 2^32 sends on the fresh asynchronous queue of capacity 1 (no send
is refused, since the slot taken is never removed from the free list) the
counter `num_mesg` has wrapped to 0 while the pending list is not empty: it
holds 2^32 entries. -/
theorem num_mesg_wraps :
    queue_cap1.num_mesg = 0 ∧ queue_cap1.mesg_head = [] ∧
    (send_times (2 ^ 32) queue_cap1).num_mesg = 0 ∧
    (send_times (2 ^ 32) queue_cap1).mesg_head.length = 2 ^ 32 ∧
    (send_times (2 ^ 32) queue_cap1).num_mesg
      ≠ (send_times (2 ^ 32) queue_cap1).mesg_head.length := by
  have hq : queue_cap1.num_mesg = 0 := rfl
  have hm : queue_cap1.mesg_head = [] := rfl
  obtain ⟨h1, h2⟩ := send_times_spec 0 [] (2 ^ 32) queue_cap1 rfl rfl (by rw [hq]; norm_num)
  rw [hq] at h2
  rw [hm] at h1
  have h2' : (send_times (2 ^ 32) queue_cap1).num_mesg = 0 := by
    rw [h2]
    norm_num
  have h1' : (send_times (2 ^ 32) queue_cap1).mesg_head.length = 2 ^ 32 := by
    rw [h1]
    simp
  refine ⟨hq, hm, h2', h1', ?_⟩
  rw [h2', h1']
  norm_num

/-! ## Termination of the traversals -/

/-- The transitions a handler makes to states of a valid table return and leave
the engine at rest on the same table. -/
theorem run_transitions_ok {Ctx : Type} (tbl : List (hsm_state_info_t Ctx))
    (hv : ValidTable tbl) (tf : Nat) (htf : tbl.length ≤ tf) :
    ∀ (ts : List Nat) (e : hsm_engine_t Ctx), e.state_info = tbl →
      e.in_state_transition = false →
      (e.cur_state < tbl.length ∨ e.cur_state = HSM_STATE_NONE) →
      (∀ t ∈ ts, t < tbl.length) →
      ∃ e1, run_transitions tf e ts = (Status.returned, e1) ∧ e1.state_info = tbl ∧
        e1.in_state_transition = false ∧
        (e1.cur_state < tbl.length ∨ e1.cur_state = HSM_STATE_NONE) := by
  intro ts
  induction ts with
  | nil =>
    intro e he hrest hcur _
    exact ⟨e, rfl, he, hrest, hcur⟩
  | cons t ts ih =>
    intro e he hrest hcur hts
    have ht : t < tbl.length := hts t (List.mem_cons_self _ _)
    obtain ⟨up, hup, _, _⟩ := parent_chain_total tbl hv e.cur_state hcur
    obtain ⟨down, hdown, _⟩ := substate_chain_total tbl hv t ht
    have hup1 := link_chain_mono _ tbl _ _ _ hup tf htf
    have hdown1 := link_chain_mono _ tbl _ _ _ hdown tf htf
    obtain ⟨ctx1, h1⟩ := hsm_state_transtion_spec tbl hv e he hrest t tf ht up down hup1 hdown1
    obtain ⟨e1, hr, h2, h3, h4⟩ := ih
      { e with ctx := ctx1, calls := e.calls ++ (exit_calls tbl up ++ entry_calls tbl down),
               cur_state := HSM_STATE_NONE, next_state := t, in_state_transition := false }
      he rfl (Or.inr rfl) (fun x hx => hts x (List.mem_cons_of_mem _ hx))
    refine ⟨e1, ?_, h2, h3, h4⟩
    rw [run_transitions, h1]
    exact hr

/-- The dispatch loop on a valid table returns within the length of the parent
chain it climbs, when the handlers make transitions to states of the table
only. -/
theorem dispatch_loop_returns {Ctx : Type} (tbl : List (hsm_state_info_t Ctx))
    (hv : ValidTable tbl) (tf : Nat) (htf : tbl.length ≤ tf)
    (htargets : ∀ (s : Nat) (si : hsm_state_info_t Ctx), tbl[s]? = some si →
      ∀ cx ev ln d, ∀ x ∈ (si.hsm_state_event cx ev ln d).transitions, x < tbl.length)
    (event len : Nat) (event_data : List Nat) :
    ∀ (f : Nat) (e : hsm_engine_t Ctx) (h0 : Bool) (c : Nat) (l : List Nat),
      parent_chain tbl f c = some l → e.state_info = tbl → e.in_state_transition = false →
      (e.cur_state < tbl.length ∨ e.cur_state = HSM_STATE_NONE) →
      (dispatch_loop event len event_data tf f e h0 c).1 = Status.returned := by
  intro f
  induction f with
  | zero =>
    intro e h0 c l h _ _ _
    rcases link_chain_inv _ _ _ c l h with ⟨hc, _⟩ | ⟨_, g, _, _, hg, _⟩
    · unfold dispatch_loop
      simp [hc]
    · omega
  | succ f ih =>
    intro e h0 c l h he hrest hcur
    cases h0 with
    | true => rw [dispatch_loop_handled]
    | false =>
      rcases link_chain_inv _ _ _ c l h with ⟨hc, _⟩ | ⟨hc, g, si, l1, hg, hsi, hr, _⟩
      · unfold dispatch_loop
        simp [hc]
      · have hgf : g = f := by omega
        subst hgf
        have hsi1 : e.state_info[c]? = some si := by rw [he]; exact hsi
        obtain ⟨e1, hrun, h2, h3, h4⟩ := run_transitions_ok tbl hv tf htf
          (si.hsm_state_event e.ctx event len event_data).transitions
          { e with
            event_state := c, ctx := (si.hsm_state_event e.ctx event len event_data).ctx,
            calls := e.calls ++ [Call.event c event len event_data] }
          he hrest hcur (htargets c si hsi e.ctx event len event_data)
        have hsi2 : e1.state_info[c]? = some si := by rw [h2]; exact hsi
        unfold dispatch_loop
        simp only [Bool.false_eq_true, hc, or_self, if_false, hsi1, hrun, hsi2]
        exact ih e1 _ si.parent_state l1 hr h2 h3 h4

theorem traffic_table_valid : ValidTable traffic_table := by
  refine ⟨?_, ?_, ?_, ?_⟩
  · intro i si h
    match i, h with
    | 0, h | 1, h | 2, h | 3, h =>
      simp only [traffic_table, List.getElem?_cons_zero, List.getElem?_cons_succ,
        Option.some.injEq] at h
      subst h
      exact ⟨rfl, by decide⟩
  · intro i si h
    match i, h with
    | 0, h | 1, h | 2, h | 3, h =>
      simp only [traffic_table, List.getElem?_cons_zero, List.getElem?_cons_succ,
        Option.some.injEq] at h
      subst h
      decide
  · intro i si h hi
    match i, h with
    | 0, h =>
      simp only [traffic_table, List.getElem?_cons_zero, Option.some.injEq] at h
      subst h
      exact ⟨_, rfl, rfl⟩
    | 1, h | 2, h | 3, h =>
      simp only [traffic_table, List.getElem?_cons_zero, List.getElem?_cons_succ,
        Option.some.injEq] at h
      subst h
      exact absurd rfl hi
  · intro i hi
    match i, hi with
    | 0, _ => exact ⟨4, [0], rfl, by decide⟩
    | 1, _ => exact ⟨4, [1, 0], rfl, by decide⟩
    | 2, _ => exact ⟨4, [2, 0], rfl, by decide⟩
    | 3, _ => exact ⟨4, [3, 0], rfl, by decide⟩

theorem traffic_table_targets : ∀ (s : Nat) (si : hsm_state_info_t Nat),
    traffic_table[s]? = some si →
    ∀ cx ev ln d, ∀ x ∈ (si.hsm_state_event cx ev ln d).transitions,
      x < traffic_table.length := by
  intro s si h cx ev ln d x hx
  match s, h with
  | 0, h =>
    simp only [traffic_table, List.getElem?_cons_zero, Option.some.injEq] at h
    subst h
    simp [handles] at hx
  | 1, h | 2, h | 3, h =>
    simp only [traffic_table, List.getElem?_cons_zero, List.getElem?_cons_succ,
      Option.some.injEq] at h
    subst h
    simp only [light] at hx
    split at hx
    · simp only [List.mem_singleton] at hx
      subst hx
      decide
    · simp at hx

/-- C19: for a valid table of `num_states` entries, an engine at rest on it with
its current state in the table, a target `t` in the table, and handlers whose
transitions go to states of the table: the parent chain of the current state
and the initial-substate chain of `t` reach `HSM_STATE_NONE` and are no longer
than `num_states`, and the exit phase, the entry phase and the dispatch loop
return on `num_states` units of fuel, that is within `num_states` iterations. -/
theorem traversals_terminate {Ctx : Type} (tbl : List (hsm_state_info_t Ctx))
    (hv : ValidTable tbl) (e : hsm_engine_t Ctx) (he : e.state_info = tbl)
    (hrest : e.in_state_transition = false) (hcur : e.cur_state < tbl.length)
    (t : Nat) (ht : t < tbl.length)
    (htargets : ∀ (s : Nat) (si : hsm_state_info_t Ctx), tbl[s]? = some si →
      ∀ cx ev ln d, ∀ x ∈ (si.hsm_state_event cx ev ln d).transitions, x < tbl.length)
    (event len : Nat) (event_data : List Nat) :
    (∃ up, parent_chain tbl tbl.length e.cur_state = some up ∧ up.length ≤ tbl.length) ∧
    (∃ down, substate_chain tbl tbl.length t = some down ∧ down.length ≤ tbl.length) ∧
    (exit_loop tbl.length e e.cur_state).1 = Status.returned ∧
    (entry_loop tbl.length e t).1 = Status.returned ∧
    (dispatch_loop event len event_data tbl.length tbl.length e false e.cur_state).1
      = Status.returned := by
  obtain ⟨up, hup, _, hlen⟩ := parent_chain_total tbl hv e.cur_state (Or.inl hcur)
  obtain ⟨down, hdown, _⟩ := substate_chain_total tbl hv t ht
  obtain ⟨hdl, _, _⟩ := link_chain_bounds _ tbl _ _ _ hdown
  have hd := dispatch_loop_returns tbl hv tbl.length le_rfl htargets event len event_data
    tbl.length e false e.cur_state up hup he hrest (Or.inl hcur)
  subst he
  obtain ⟨c1, h1⟩ := exit_loop_spec e.state_info.length e e.cur_state up hup
  obtain ⟨c2, h2⟩ := entry_loop_spec e.state_info.length e t down hdown
  exact ⟨⟨up, hup, hlen⟩, ⟨down, hdown, hdl⟩, by rw [h1], by rw [h2], hd⟩

/-- Instance of C19: the traffic-light table, current state Red, target Green. -/
theorem traversals_terminate_witness :
    (∃ up, parent_chain traffic_table traffic_table.length traffic_engine.cur_state = some up ∧
      up.length ≤ traffic_table.length) ∧
    (∃ down, substate_chain traffic_table traffic_table.length 2 = some down ∧
      down.length ≤ traffic_table.length) ∧
    (exit_loop traffic_table.length traffic_engine traffic_engine.cur_state).1
      = Status.returned ∧
    (entry_loop traffic_table.length traffic_engine 2).1 = Status.returned ∧
    (dispatch_loop TIMER_EXPIRED 0 [] traffic_table.length traffic_table.length traffic_engine
      false traffic_engine.cur_state).1 = Status.returned :=
  traversals_terminate traffic_table traffic_table_valid traffic_engine rfl rfl (by decide) 2
    (by decide) traffic_table_targets TIMER_EXPIRED 0 []

/-! ## Dispatch with transitions -/

/-- With no current state the internal dispatch routine calls no handler and
reports the event unhandled. -/
theorem hsm_dispatch_sync_internal_none {Ctx : Type} (fuel : Nat) (e : hsm_engine_t Ctx)
    (event len : Nat) (event_data : List Nat) (h : e.cur_state = HSM_STATE_NONE) :
    hsm_dispatch_sync_internal fuel e event len event_data
      = (Status.returned,
          HSM_DPRINT { e with last_event := event % 256 }
            (Diag.unhandled event HSM_STATE_NONE)) := by
  unfold hsm_dispatch_sync_internal dispatch_loop
  simp [h]

/-- An event that the handler of the current state answers with one
transition to a state `t` of a valid table and reports handled: the internal
dispatch routine returns after that one handler, the exit and entry actions
of the transition have run, and the current state is `HSM_STATE_NONE`. -/
theorem hsm_dispatch_sync_internal_transition {Ctx : Type} (tbl : List (hsm_state_info_t Ctx))
    (hv : ValidTable tbl) (e : hsm_engine_t Ctx) (he : e.state_info = tbl)
    (hrest : e.in_state_transition = false) (si : hsm_state_info_t Ctx)
    (hsi : tbl[e.cur_state]? = some si) (t : Nat) (ht : t < tbl.length)
    (event len : Nat) (event_data : List Nat)
    (hh : (si.hsm_state_event e.ctx event len event_data).handled = true)
    (htr : (si.hsm_state_event e.ctx event len event_data).transitions = [t])
    (fuel : Nat) (up down : List Nat) (hup : parent_chain tbl (fuel + 1) e.cur_state = some up)
    (hdown : substate_chain tbl (fuel + 1) t = some down) :
    ∃ ctx1, hsm_dispatch_sync_internal (fuel + 1) e event len event_data = (Status.returned,
      { e with
        last_event := event % 256, event_state := e.cur_state, ctx := ctx1,
        calls := e.calls ++ [Call.event e.cur_state event len event_data]
          ++ (exit_calls tbl up ++ entry_calls tbl down),
        cur_state := HSM_STATE_NONE, next_state := t, in_state_transition := false }) := by
  have hc := valid_state_ne_none tbl hv _ (lookup_lt tbl _ si hsi)
  obtain ⟨ctx1, h1⟩ := hsm_state_transtion_spec tbl hv
    { e with
      last_event := event % 256, event_state := e.cur_state,
      ctx := (si.hsm_state_event e.ctx event len event_data).ctx,
      calls := e.calls ++ [Call.event e.cur_state event len event_data] }
    he hrest t (fuel + 1) ht up down hup hdown
  subst he
  refine ⟨ctx1, ?_⟩
  unfold hsm_dispatch_sync_internal dispatch_loop
  simp only [Bool.false_eq_true, hc, or_self, if_false, hsi, htr, run_transitions, h1, hh,
    dispatch_loop_handled]
  simp

/-- On a synchronous queue `hsm_dispatch` is the internal dispatch routine. -/
theorem hsm_dispatch_sync {Ctx : Type} (fuel : Nat) (e e1 : hsm_engine_t Ctx)
    (event len : Nat) (event_data : List Nat) (hs : e.mesg_q.is_synchronous = true)
    (h : hsm_dispatch_sync_internal fuel e event len event_data = (Status.returned, e1)) :
    hsm_dispatch fuel e event len event_data
      = (Status.returned, { e1 with mesg_q := e.mesg_q }) := by
  unfold hsm_dispatch mesg_queue_send
  simp only [hs, if_true, h]
  simp

/-- A dispatch on an engine with synchronous delivery, a debug hook and no
current state calls no handler: it adds the unhandled-event diagnostic and
leaves the engine without current state. -/
theorem hsm_dispatch_none {Ctx : Type} (fuel : Nat) (e : hsm_engine_t Ctx)
    (event len : Nat) (event_data : List Nat) (hs : e.mesg_q.is_synchronous = true)
    (hhook : e.hsm_debug_print = true) (h : e.cur_state = HSM_STATE_NONE) :
    (hsm_dispatch fuel e event len event_data).1 = Status.returned ∧
    (hsm_dispatch fuel e event len event_data).2.calls
      = e.calls ++ [Call.dprint (Diag.unhandled event HSM_STATE_NONE)] ∧
    (hsm_dispatch fuel e event len event_data).2.cur_state = HSM_STATE_NONE ∧
    (hsm_dispatch fuel e event len event_data).2.mesg_q.is_synchronous = true ∧
    (hsm_dispatch fuel e event len event_data).2.hsm_debug_print = true := by
  rw [hsm_dispatch_sync fuel e _ event len event_data hs
    (hsm_dispatch_sync_internal_none fuel e event len event_data h)]
  simp [HSM_DPRINT, hhook, hs, h]

/-- C15: on the traffic-light engine (synchronous delivery, current state Red)
the first `TIMER_EXPIRED` calls the handler of Red, one exit action (Red) and
one entry action (Green), but leaves `HSM_STATE_NONE` as current state, not
Green; the second and the third `TIMER_EXPIRED` then reach no handler: each
adds only the unhandled-event diagnostic, fires no exit or entry action, and
the current state stays `HSM_STATE_NONE` instead of Yellow and Red. -/
theorem traffic_light_stalls :
    ValidTable traffic_table ∧ traffic_engine.mesg_q.is_synchronous = true ∧
    hsm_get_curstate traffic_engine = 1 ∧
    (hsm_dispatch 4 traffic_engine TIMER_EXPIRED 0 []).1 = Status.returned ∧
    traffic_step1.calls = [Call.event 1 TIMER_EXPIRED 0 [], Call.exit 1, Call.entry 2] ∧
    hsm_get_curstate traffic_step1 = HSM_STATE_NONE ∧
    (hsm_dispatch 4 traffic_step1 TIMER_EXPIRED 0 []).1 = Status.returned ∧
    traffic_step2.calls
      = traffic_step1.calls ++ [Call.dprint (Diag.unhandled TIMER_EXPIRED HSM_STATE_NONE)] ∧
    hsm_get_curstate traffic_step2 = HSM_STATE_NONE ∧
    (hsm_dispatch 4 traffic_step2 TIMER_EXPIRED 0 []).1 = Status.returned ∧
    traffic_step3.calls
      = traffic_step2.calls ++ [Call.dprint (Diag.unhandled TIMER_EXPIRED HSM_STATE_NONE)] ∧
    hsm_get_curstate traffic_step3 = HSM_STATE_NONE := by
  obtain ⟨ctx1, h⟩ := hsm_dispatch_sync_internal_transition traffic_table traffic_table_valid
    traffic_engine rfl rfl _ (rfl : traffic_table[traffic_engine.cur_state]? = some _) 2
    (by decide) TIMER_EXPIRED 0 [] rfl rfl 3 [1, 0] [2] rfl rfl
  have hd := hsm_dispatch_sync 4 traffic_engine _ TIMER_EXPIRED 0 [] rfl h
  have s1 : traffic_step1.mesg_q.is_synchronous = true := by
    unfold traffic_step1
    rw [hd]
    rfl
  have k1 : traffic_step1.hsm_debug_print = true := by
    unfold traffic_step1
    rw [hd]
    rfl
  have c1 : traffic_step1.cur_state = HSM_STATE_NONE := by
    unfold traffic_step1
    rw [hd]
  obtain ⟨r2, l2, c2, s2, k2⟩ := hsm_dispatch_none 4 traffic_step1 TIMER_EXPIRED 0 [] s1 k1 c1
  have e2 : traffic_step2 = (hsm_dispatch 4 traffic_step1 TIMER_EXPIRED 0 []).2 := by
    unfold traffic_step2
    rfl
  rw [← e2] at l2 c2 s2 k2
  obtain ⟨r3, l3, c3, _, _⟩ := hsm_dispatch_none 4 traffic_step2 TIMER_EXPIRED 0 [] s2 k2 c2
  have e3 : traffic_step3 = (hsm_dispatch 4 traffic_step2 TIMER_EXPIRED 0 []).2 := by
    unfold traffic_step3
    rfl
  rw [← e3] at l3 c3
  have l1 : traffic_step1.calls
      = [Call.event 1 TIMER_EXPIRED 0 [], Call.exit 1, Call.entry 2] := by
    unfold traffic_step1
    rw [hd]
    rfl
  exact ⟨traffic_table_valid, rfl, rfl, by rw [hd], l1, c1, r2, l2, c2, r3, l3, c3⟩

/-! ## Table reads of the validation -/

/-- The per-entry check reads `state_info[initial_substate]` without a bound: for
an entry marked as super state whose initial substate is not in the table the
validation stops on that read. -/
theorem check_entry_sub_outside {Ctx : Type} (tbl : List (hsm_state_info_t Ctx)) (fuel i : Nat)
    (si : hsm_state_info_t Ctx) (hsi : tbl[i]? = some si) (hid : si.state = i)
    (hlt : i < HSM_MAX_STATES) (hsub : si.has_substates ≠ 0)
    (hinit : si.initial_substate ≠ HSM_STATE_NONE)
    (hout : tbl[si.initial_substate]? = none) :
    check_entry fuel tbl i = Check.stop Status.out_of_bounds := by
  unfold check_entry
  simp only [hsi, hid, hout]
  rw [if_neg (by simp [Nat.not_le.mpr hlt]), if_neg (by simp [hinit]), if_neg (by simp [hsub]),
    if_pos hsub]

/-- The loop-detection walk reads `state_info[next_state]` without a bound: for
an entry without substates whose parent is neither `HSM_STATE_NONE` nor in the
table the validation stops on that read. -/
theorem check_entry_parent_outside {Ctx : Type} (tbl : List (hsm_state_info_t Ctx))
    (fuel i : Nat) (si : hsm_state_info_t Ctx) (hsi : tbl[i]? = some si) (hid : si.state = i)
    (hlt : i < HSM_MAX_STATES) (hsub : si.has_substates = 0)
    (hinit : si.initial_substate = HSM_STATE_NONE)
    (hpar : si.parent_state ≠ HSM_STATE_NONE) (hout : tbl[si.parent_state]? = none) :
    check_entry (fuel + 1) tbl i = Check.stop Status.out_of_bounds := by
  have hne : i ≠ HSM_STATE_NONE := by
    unfold HSM_MAX_STATES at hlt
    unfold HSM_STATE_NONE
    omega
  have hv : (List.replicate HSM_MAX_STATES 0)[i]? = some 0 := by
    rw [List.getElem?_replicate]
    simp [hlt]
  have hl : loop_detect tbl (fuel + 1) (List.replicate HSM_MAX_STATES 0) i
      = Check.stop Status.out_of_bounds := by
    rw [loop_detect]
    simp only [hne, if_false, hv, hsi, hout]
    rw [if_neg (by simp), if_pos hpar]
  unfold check_entry
  simp only [hsi, hid]
  rw [if_neg (by simp [Nat.not_le.mpr hlt]), if_neg (by simp [hsub]), if_neg (by simp [hinit]),
    if_neg (by simp [hsub])]
  exact hl

theorem hsm_engine_create_first_stop {Ctx : Type} [Inhabited Ctx]
    (fuel sizeof_mesg : Nat)
    (malloc_ok qbuf_ok : Bool) (ctx : Ctx) (init_state : Nat)
    (tbl : List (hsm_state_info_t Ctx)) (k max_queued_event event_data_len flags : Nat)
    (hsm_debug_print : Bool) (st : Status) (h : check_entry fuel tbl 0 = Check.stop st) :
    hsm_engine_create fuel sizeof_mesg malloc_ok qbuf_ok ctx init_state tbl (k + 1)
      max_queued_event event_data_len flags hsm_debug_print = (st, none) := by
  unfold hsm_engine_create validate_loop
  simp only [h]

/-- C21: two tables of one entry (`num_states = 1`) on which the validation of
`hsm_engine_create` reads outside the table.  On `oob_parent_table`, whose
root names state 7 as parent, the loop-detection walk reads
`state_info[7].initial_substate`; on `oob_sub_table`, whose root is a super
state with initial substate 5, the per-entry check reads
`state_info[5].parent_state`.  Neither index is below `num_states`. -/
theorem hsm_engine_create_reads_outside :
    oob_parent_table.length = 1 ∧ oob_parent_table[7]? = none ∧
    hsm_engine_create 2 16 true true (0 : Nat) 0 oob_parent_table 1 4 8 0 true
      = (Status.out_of_bounds, none) ∧
    oob_sub_table.length = 1 ∧ oob_sub_table[5]? = none ∧
    hsm_engine_create 2 16 true true (0 : Nat) 0 oob_sub_table 1 4 8 0 true
      = (Status.out_of_bounds, none) :=
  ⟨rfl, rfl,
    hsm_engine_create_first_stop 2 16 true true 0 0 oob_parent_table 0 4 8 0 true _
      (check_entry_parent_outside oob_parent_table 1 0 _ rfl rfl (by decide) rfl rfl
        (by decide) rfl),
    rfl, rfl,
    hsm_engine_create_first_stop 2 16 true true 0 0 oob_sub_table 0 4 8 0 true _
      (check_entry_sub_outside oob_sub_table 2 0 _ rfl rfl (by decide) (by decide)
        (by decide) rfl)⟩

/-! ## Unhandled events and transitions -/

theorem two_roots_table_valid : ValidTable two_roots_table := by
  refine ⟨?_, ?_, ?_, ?_⟩
  · intro i si h
    match i, h with
    | 0, h | 1, h =>
      simp only [two_roots_table, List.getElem?_cons_zero, List.getElem?_cons_succ,
        Option.some.injEq] at h
      subst h
      exact ⟨rfl, by decide⟩
  · intro i si h
    match i, h with
    | 0, h | 1, h =>
      simp only [two_roots_table, List.getElem?_cons_zero, List.getElem?_cons_succ,
        Option.some.injEq] at h
      subst h
      decide
  · intro i si h hi
    match i, h with
    | 0, h | 1, h =>
      simp only [two_roots_table, List.getElem?_cons_zero, List.getElem?_cons_succ,
        Option.some.injEq] at h
      subst h
      exact absurd rfl hi
  · intro i hi
    match i, hi with
    | 0, _ => exact ⟨2, [0], rfl, by decide⟩
    | 1, _ => exact ⟨2, [1], rfl, by decide⟩

theorem dispatch_loop_none {Ctx : Type} (event len : Nat) (event_data : List Nat)
    (tf f : Nat) (e : hsm_engine_t Ctx) (h : Bool) :
    dispatch_loop event len event_data tf f e h HSM_STATE_NONE = (Status.returned, e, h) := by
  unfold dispatch_loop
  simp

/-- An event that the handler of a root current state answers with one
transition to a state `t` of a valid table and reports not handled: the
internal dispatch routine returns after that one handler with the
unhandled-event diagnostic, and the transition has changed the engine. -/
theorem hsm_dispatch_sync_internal_root_transition {Ctx : Type}
    (tbl : List (hsm_state_info_t Ctx)) (hv : ValidTable tbl) (e : hsm_engine_t Ctx)
    (he : e.state_info = tbl) (hrest : e.in_state_transition = false)
    (si : hsm_state_info_t Ctx) (hsi : tbl[e.cur_state]? = some si)
    (hpar : si.parent_state = HSM_STATE_NONE) (t : Nat) (ht : t < tbl.length)
    (event len : Nat) (event_data : List Nat)
    (hh : (si.hsm_state_event e.ctx event len event_data).handled = false)
    (htr : (si.hsm_state_event e.ctx event len event_data).transitions = [t])
    (fuel : Nat) (up down : List Nat) (hup : parent_chain tbl (fuel + 1) e.cur_state = some up)
    (hdown : substate_chain tbl (fuel + 1) t = some down) :
    ∃ ctx1, hsm_dispatch_sync_internal (fuel + 1) e event len event_data = (Status.returned,
      HSM_DPRINT { e with
        last_event := event % 256, event_state := e.cur_state, ctx := ctx1,
        calls := e.calls ++ [Call.event e.cur_state event len event_data]
          ++ (exit_calls tbl up ++ entry_calls tbl down),
        cur_state := HSM_STATE_NONE, next_state := t, in_state_transition := false }
        (Diag.unhandled event HSM_STATE_NONE)) := by
  have hc := valid_state_ne_none tbl hv _ (lookup_lt tbl _ si hsi)
  obtain ⟨ctx1, h1⟩ := hsm_state_transtion_spec tbl hv
    { e with
      last_event := event % 256, event_state := e.cur_state,
      ctx := (si.hsm_state_event e.ctx event len event_data).ctx,
      calls := e.calls ++ [Call.event e.cur_state event len event_data] }
    he hrest t (fuel + 1) ht up down hup hdown
  subst he
  refine ⟨ctx1, ?_⟩
  unfold hsm_dispatch_sync_internal dispatch_loop
  simp only [Bool.false_eq_true, hc, or_self, if_false, hsi, htr, run_transitions, h1, hh,
    hpar, dispatch_loop_none]
  simp

/-- Counterexample to C6 as stated: on the valid table `two_roots_table`, with a
debug hook installed and current state 0, the only handler on the chain
reports the event 8 not handled, yet the internal dispatch routine does not
leave the current state unchanged: the handler has made a transition, and the
current state is no longer 0. -/
theorem hsm_dispatch_unhandled_moves :
    ValidTable two_roots_table ∧ (engine_at two_roots_table 0).hsm_debug_print = true ∧
    parent_chain two_roots_table two_roots_table.length (engine_at two_roots_table 0).cur_state
      = some [0] ∧
    (∀ p ∈ bubble two_roots_table 8 0 [] (engine_at two_roots_table 0).ctx [0], p.2 = false) ∧
    (hsm_dispatch_sync_internal 2 (engine_at two_roots_table 0) 8 0 []).1 = Status.returned ∧
    hsm_get_curstate (engine_at two_roots_table 0) = 0 ∧
    hsm_get_curstate (hsm_dispatch_sync_internal 2 (engine_at two_roots_table 0) 8 0 []).2
      ≠ hsm_get_curstate (engine_at two_roots_table 0) := by
  obtain ⟨ctx1, h⟩ := hsm_dispatch_sync_internal_root_transition two_roots_table
    two_roots_table_valid (engine_at two_roots_table 0) rfl rfl _
    (rfl : two_roots_table[(engine_at two_roots_table 0).cur_state]? = some _) rfl 1
    (by decide) 8 0 [] rfl rfl 1 [0] [1] rfl rfl
  refine ⟨two_roots_table_valid, rfl, rfl, by decide, by rw [h], rfl, ?_⟩
  rw [h]
  simp [hsm_get_curstate, HSM_DPRINT, engine_at, HSM_STATE_NONE]

/-! ## Reset after dispatches -/

/-- C16: on an engine with the fresh asynchronous queue of capacity 2 the events
(1, 1, [10]) and (2, 1, [20]) are submitted with `hsm_dispatch`, both without a
delivery failure; the reset to state 3 that follows returns and sets the
current state, but its flush handler is called with (2, 1, [20]) twice and
never with (1, 1, [10]): both sends wrote slot 0, which was not removed from
the free list. -/
theorem hsm_engine_reset_loses_message :
    async_engine.mesg_q.is_synchronous = false ∧ async_engine.mesg_q.free_mesg.length = 2 ∧
    (hsm_dispatch 4 async_engine 1 1 [10]).1 = Status.returned ∧ async_step1.calls = [] ∧
    (hsm_dispatch 4 async_step1 2 1 [20]).1 = Status.returned ∧ async_step2.calls = [] ∧
    (hsm_engine_reset 2 async_step2 3 record_flush []).1 = Status.returned ∧
    hsm_get_curstate (hsm_engine_reset 2 async_step2 3 record_flush []).2.1 = 3 ∧
    (hsm_engine_reset 2 async_step2 3 record_flush []).2.2 = [⟨2, 1, [20]⟩, ⟨2, 1, [20]⟩] ∧
    (⟨1, 1, [10]⟩ : mesg_t) ∉ (hsm_engine_reset 2 async_step2 3 record_flush []).2.2 := by
  refine ⟨rfl, rfl, rfl, ?_, ?_, ?_, ?_, ?_, ?_, ?_⟩ <;> decide

theorem flush_call_quiet_foldl {Ctx W : Type} (fuel : Nat)
    (handler : W → Nat → Nat → List Nat → flush_result W)
    (hq : ∀ c t l d, (handler c t l d).transitions = []) (e : hsm_engine_t Ctx) :
    ∀ (ms : List mesg_t) (c : W),
      ms.foldl (fun w m => flush_call fuel handler w m.type m.len m.data) (Status.returned, e, c)
        = (Status.returned, e, ms.foldl (fun c m => (handler c m.type m.len m.data).ctx) c) := by
  intro ms
  induction ms with
  | nil => intro c; rfl
  | cons m ms ih =>
    intro c
    rw [List.foldl_cons, List.foldl_cons]
    have h1 : flush_call fuel handler (Status.returned, e, c) m.type m.len m.data
        = (Status.returned, e, (handler c m.type m.len m.data).ctx) := by
      simp only [flush_call, hq, run_transitions]
    rw [h1, ih]

/-- A reset whose flush handler makes no transition, with fuel covering the
pending list: it returns, the handler has been applied to the content of the
pending slots in list order, the pending list is empty, the current state is
`initial_state`, and no entry action, exit action or event handler was called. -/
theorem hsm_engine_reset_quiet {Ctx W : Type} (e : hsm_engine_t Ctx) (initial_state : Nat)
    (handler : W → Nat → Nat → List Nat → flush_result W)
    (hq : ∀ c t l d, (handler c t l d).transitions = []) (ctx : W) (fuel : Nat)
    (hfuel : e.mesg_q.mesg_head.length ≤ fuel) :
    (hsm_engine_reset fuel e initial_state handler ctx).1 = Status.returned ∧
    (hsm_engine_reset fuel e initial_state handler ctx).2.2
      = (e.mesg_q.mesg_head.map e.mesg_q.qbuf).foldl
          (fun c m => (handler c m.type m.len m.data).ctx) ctx ∧
    (hsm_engine_reset fuel e initial_state handler ctx).2.1.mesg_q.mesg_head = [] ∧
    hsm_get_curstate (hsm_engine_reset fuel e initial_state handler ctx).2.1 = initial_state ∧
    (hsm_engine_reset fuel e initial_state handler ctx).2.1.calls = e.calls := by
  obtain ⟨n, hn⟩ := mesg_queue_drain_loop_spec (flush_call fuel handler) fuel e.mesg_q
    (Status.returned, e, ctx) hfuel
  unfold hsm_engine_reset mesg_queue_drain
  rw [hn, flush_call_quiet_foldl fuel handler hq e]
  exact ⟨rfl, rfl, rfl, rfl, rfl⟩

end Hsm
